import Mathlib

/-!
Verification of the `ada_annotator` document-processor core: a shallow
embedding of the DOCX/PPTX/PDF image extractors and the DOCX/PPTX
assemblers, together with proofs about the image-id scheme, the
apply/extract round trip, failure isolation and the image normalizer.
-/

namespace Ada

/-! ### Decimal numerals

The extractors build image ids with Python f-strings such as
`f"para{para_idx}_img{len(images)}"`; the embedding renders the decimal
numerals with `Nat.repr`.  We prove that `Nat.repr` is injective and
produces only the characters `'0'`-`'9'`, which is what id uniqueness
rests on. -/

def digitVal (c : Char) : Nat := c.toNat - '0'.toNat

def valOfDigits (l : List Char) : Nat :=
  l.foldl (fun a c => 10 * a + digitVal c) 0

def decDigits : List Char := ['0', '1', '2', '3', '4', '5', '6', '7', '8', '9']

/-! ### Python string operations

The source manipulates ids with `str.split`, `str.replace`, `int(...)`,
`str.strip` and `str.upper`.  We embed the semantics of these Python
operations on `List Char` (Lean's own `String.splitOn` etc. have the
same behaviour on the inputs that occur here, but are not
kernel-reducible).  `int(...)` is embedded on the decimal-digit grammar
that ids use; Python's additional leniency (signs, surrounding
whitespace, inner underscores) never produces a parse that this grammar
rejects for the id alphabet `[a-z0-9_-]`. -/

def splitOnCharList (sep : Char) : List Char → List (List Char)
  | [] => [[]]
  | c :: rest =>
    if c = sep then [] :: splitOnCharList sep rest
    else
      match splitOnCharList sep rest with
      | [] => [[c]]
      | g :: gs => (c :: g) :: gs

/-- Python `s.split(sep)` for a one-character separator. -/
def pySplit (sep : Char) (s : String) : List String :=
  (splitOnCharList sep s.data).map String.mk

/-- If `pat` is an initial segment of `l`, return the remainder. -/
def dropLitHead? : List Char → List Char → Option (List Char)
  | [], l => some l
  | _ :: _, [] => none
  | p :: ps, c :: cs => if p = c then dropLitHead? ps cs else none

/-- Scanner for `pyRemoveAll`.  The fuel argument is initialized to the
length of the scanned list; every step consumes at least one character,
so the `0, l` fallback (which echoes the remainder) is never reached
from `pyRemoveAll`. -/
def removeAllGo (o : Char) (os : List Char) : Nat → List Char → List Char
  | _, [] => []
  | 0, l => l
  | fuel + 1, c :: rest =>
    if o = c then
      match dropLitHead? os rest with
      | some rest2 => removeAllGo o os fuel rest2
      | none => c :: removeAllGo o os fuel rest
    else c :: removeAllGo o os fuel rest

/-- Python `s.replace(old, "")`: delete every (non-overlapping,
left-to-right) occurrence of `old`. -/
def pyRemoveAll (old : String) (s : String) : String :=
  match old.data with
  | [] => s
  | o :: os => String.mk (removeAllGo o os s.data.length s.data)

/-- Python `int(s)` on the decimal-digit strings that appear inside
image ids (`none` models a raised `ValueError`). -/
def pyInt? (s : String) : Option Nat :=
  match s.data with
  | [] => none
  | l => if l.all (fun c => decide (c ∈ decDigits)) then some (valOfDigits l) else none

def pyWhitespace : List Char := [' ', '\t', '\n', '\r']

/-- Python `s.strip()`. -/
def pyStrip (s : String) : String :=
  String.mk
    (((s.data.dropWhile (· ∈ pyWhitespace)).reverse.dropWhile (· ∈ pyWhitespace)).reverse)

def upperPairs : List (Char × Char) :=
  [('a', 'A'), ('b', 'B'), ('c', 'C'), ('d', 'D'), ('e', 'E'), ('f', 'F'),
   ('g', 'G'), ('h', 'H'), ('i', 'I'), ('j', 'J'), ('k', 'K'), ('l', 'L'),
   ('m', 'M'), ('n', 'N'), ('o', 'O'), ('p', 'P'), ('q', 'Q'), ('r', 'R'),
   ('s', 'S'), ('t', 'T'), ('u', 'U'), ('v', 'V'), ('w', 'W'), ('x', 'X'),
   ('y', 'Y'), ('z', 'Z')]

def upperChar (c : Char) : Char :=
  match List.lookup c upperPairs with
  | some u => u
  | none => c

/-- Python `s.upper()` on the ASCII content-type strings used here. -/
def pyUpper (s : String) : String := String.mk (s.data.map upperChar)

/-- Python `s.startswith(p)`. -/
def pyStartsWith (p s : String) : Bool :=
  (dropLitHead? p.data s.data).isSome

/-! ### The id scheme

Ids are built by Python f-strings; each format uses a distinct
`<letters><digits>_<letters><digits>` shape. -/

/-- Source: `f"para{para_idx}_img{len(images)}"` (DOCX inline pass). -/
def mkInlineId (p n : Nat) : String :=
  "para" ++ Nat.repr p ++ "_img" ++ Nat.repr n

/-- Source: `f"para{para_idx}_float{len(images)}"` (DOCX floating pass). -/
def mkFloatId (p n : Nat) : String :=
  "para" ++ Nat.repr p ++ "_float" ++ Nat.repr n

/-- Source: `f"slide{slide_idx}_shape{shape_idx}"` (PPTX extractor). -/
def mkPptxId (i j : Nat) : String :=
  "slide" ++ Nat.repr i ++ "_shape" ++ Nat.repr j

/-- Source: `f"page{page_idx}_img{img_idx}"` (PDF extractor). -/
def mkPdfId (i j : Nat) : String :=
  "page" ++ Nat.repr i ++ "_img" ++ Nat.repr j

/-! ### Data model

`ImagePart` embeds an OOXML binary part (`related_parts[rId]` in
python-docx, `shape.image` in python-pptx): its byte blob, its declared
content type, and the result of `PIL.Image.open` on the blob (`none`
models a raised decode error).  `ImageRec` embeds the pydantic
`ImageMetadata` model, `Position` its format-specific `position` dict. -/

structure ImagePart where
  blob : List Nat
  contentType : String
  pilSize : Option (Nat × Nat)
deriving Repr, DecidableEq

inductive Position where
  | docx (paragraph_index : Nat) (anchor_type : String)
  | pptx (slide_index shape_index : Nat) (left top width height : Int)
      (slide_title : Option String)
  | pdf (page_index image_index xref : Nat)
deriving Repr, DecidableEq

structure ImageRec where
  image_id : String
  filename : String
  format : String
  size_bytes : Nat
  width_pixels : Nat
  height_pixels : Nat
  page_number : Option Nat
  position : Position
  existing_alt_text : Option String
deriving Repr, DecidableEq

def allowedFormats : List String := ["JPEG", "PNG", "GIF", "BMP"]

def lowerPairs : List (Char × Char) := upperPairs.map (fun p => (p.2, p.1))

def lowerChar (c : Char) : Char :=
  match List.lookup c lowerPairs with
  | some l => l
  | none => c

/-- Python `s.lower()` on the ASCII format names used here. -/
def pyLower (s : String) : String := String.mk (s.data.map lowerChar)

/-- Pydantic validation of `ImageMetadata`: `format` must be one of the
four literals, `size_bytes`, `width_pixels`, `height_pixels` must be
`> 0` and `page_number`, when present, `> 0`; a violation raises
`ValidationError`, embedded as `none`. -/
def mkImageMetadata? (image_id filename fmt : String) (size w h : Nat)
    (page : Option Nat) (pos : Position) (alt : Option String) : Option ImageRec :=
  if allowedFormats.contains fmt && decide (0 < size) && decide (0 < w)
      && decide (0 < h) && (match page with | some p => decide (0 < p) | none => true) then
    some ⟨image_id, filename, fmt, size, w, h, page, pos, alt⟩
  else none

/-- Source: `content_type.split("/")[-1].upper()`. -/
def formatFromContentType (ct : String) : String :=
  pyUpper (String.mk ((splitOnCharList '/' ct.data).getLastD []))

/-- Source: `if format_str in ["JPG", "JPEG"]: format_str = "JPEG"` (the inline
pass writes this as two `==` tests, with the same meaning). -/
def normFormat (f : String) : String :=
  if f = "JPG" ∨ f = "JPEG" then "JPEG" else f

/-! ### DOCX document tree

A `Pic` embeds one `pic:pic` element together with the `a:blip` it
contains: `elemId` is the element's identity (Python `id()`),
`embedRId` the blip's `r:embed` attribute, and the `nvPicPr`/`cNvPr`
fields are what the assembler reads and writes.  A `Drawing` embeds one
`w:drawing` with its `wp:inline`/`wp:anchor` child's `wp:docPr`
title/descr attributes.  `Paragraph.extraDrawings` are drawings
reachable from the paragraph element but not through `paragraph.runs`
(e.g. inside hyperlinks); the paragraph-level XPath search sees the
runs' drawings followed by them. -/

structure Pic where
  elemId : Nat
  embedRId : Option String
  hasNvPicPr : Bool
  hasCNvPr : Bool
  cNvPrTitle : Option String
  cNvPrDescr : Option String
deriving Repr, DecidableEq

structure Drawing where
  docPrTitle : Option String
  docPrDescr : Option String
  pics : List Pic
deriving Repr, DecidableEq

structure Run where
  drawings : List Drawing
deriving Repr, DecidableEq

structure Paragraph where
  runs : List Run
  extraDrawings : List Drawing
deriving Repr, DecidableEq

structure DocxDocument where
  paragraphs : List Paragraph
  relatedParts : List (String × ImagePart)
deriving Repr, DecidableEq

/-- Python dict lookup `related_parts.get(rId)`. -/
def partLookup : List (String × ImagePart) → String → Option ImagePart
  | [], _ => none
  | kv :: t, k => if kv.1 = k then some kv.2 else partLookup t k

def DocxDocument.findPart (doc : DocxDocument) (rId : String) : Option ImagePart :=
  partLookup doc.relatedParts rId

def Paragraph.searchDrawings (para : Paragraph) : List Drawing :=
  (para.runs.map Run.drawings).flatten ++ para.extraDrawings

/-- Python truthiness of an optional string attribute: `if title: ...`. -/
def truthy : Option String → Option String
  | some t => if t = "" then none else some t
  | none => none

/-- Source: `DOCXExtractor._extract_alt_text_from_blip`: the ancestor
drawing's `wp:docPr` `title` attribute if truthy, else its `descr`
attribute if truthy, else `None`. -/
def drawingAltText (d : Drawing) : Option String :=
  Option.orElse (truthy d.docPrTitle) (fun _ => truthy d.docPrDescr)

/-! ### DOCX extractor -/

/-- The body of the per-blip loop of
`DOCXExtractor._extract_inline_images`: `none` covers both the `continue`
branches (missing/falsy `r:embed`, unknown relationship id) and the
caught exceptions (`Image.open` decode failure, pydantic validation). -/
def extractInlineBlip? (doc : DocxDocument) (paraIdx count : Nat)
    (d : Drawing) (p : Pic) : Option ImageRec :=
  match p.embedRId with
  | none => none
  | some rId =>
    if rId = "" then none
    else
      match doc.findPart rId with
      | none => none
      | some part =>
        match part.pilSize with
        | none => none
        | some (w, h) =>
          let fmt := normFormat (formatFromContentType part.contentType)
          let image_id := mkInlineId paraIdx count
          mkImageMetadata? image_id (image_id ++ "." ++ pyLower fmt) fmt
            part.blob.length w h none (Position.docx paraIdx "inline")
            (drawingAltText d)

def inlinePicsGo (doc : DocxDocument) (paraIdx : Nat) (d : Drawing) :
    List Pic → List ImageRec → List ImageRec
  | [], acc => acc
  | p :: rest, acc =>
    match extractInlineBlip? doc paraIdx acc.length d p with
    | some r => inlinePicsGo doc paraIdx d rest (acc ++ [r])
    | none => inlinePicsGo doc paraIdx d rest acc

def inlineDrawingsGo (doc : DocxDocument) (paraIdx : Nat) :
    List Drawing → List ImageRec → List ImageRec
  | [], acc => acc
  | d :: rest, acc => inlineDrawingsGo doc paraIdx rest (inlinePicsGo doc paraIdx d d.pics acc)

def inlineRunsGo (doc : DocxDocument) (paraIdx : Nat) :
    List Run → List ImageRec → List ImageRec
  | [], acc => acc
  | r :: rest, acc => inlineRunsGo doc paraIdx rest (inlineDrawingsGo doc paraIdx r.drawings acc)

def inlineParasGo (doc : DocxDocument) :
    Nat → List Paragraph → List ImageRec → List ImageRec
  | _, [], acc => acc
  | i, para :: rest, acc => inlineParasGo doc (i + 1) rest (inlineRunsGo doc i para.runs acc)

/-- Source: `DOCXExtractor._extract_inline_images`: walk
`enumerate(self.document.paragraphs)`, each paragraph's runs, and every
`a:blip` under each run; the image id counter is `len(images)`, the
length of the one list accumulated across the whole pass. -/
def extractInlineImages (doc : DocxDocument) : List ImageRec :=
  inlineParasGo doc 0 doc.paragraphs []

/-- The per-blip body of `DOCXExtractor._extract_floating_images`.
`.ok none` is a `continue`; `.error ()` is a raised exception, which the
`try` around the whole blip loop of one drawing turns into skipping the
rest of that drawing. -/
def floatBlipStep (doc : DocxDocument) (paraIdx count : Nat)
    (d : Drawing) (p : Pic) : Except Unit (Option ImageRec) :=
  match p.embedRId with
  | none => .ok none
  | some rId =>
    if rId = "" then .ok none
    else
      match doc.findPart rId with
      | none => .ok none
      | some part =>
        match part.pilSize with
        | none => .error ()
        | some (w, h) =>
          let fmt := normFormat (formatFromContentType part.contentType)
          let image_id := mkFloatId paraIdx count
          match mkImageMetadata? image_id (image_id ++ "." ++ pyLower fmt) fmt
              part.blob.length w h none (Position.docx paraIdx "floating")
              (drawingAltText d) with
          | none => .error ()
          | some r => .ok (some r)

def floatPicsGo (doc : DocxDocument) (paraIdx : Nat) (d : Drawing) :
    List Pic → List ImageRec → List ImageRec
  | [], acc => acc
  | p :: rest, acc =>
    match floatBlipStep doc paraIdx acc.length d p with
    | .error _ => acc
    | .ok none => floatPicsGo doc paraIdx d rest acc
    | .ok (some r) => floatPicsGo doc paraIdx d rest (acc ++ [r])

def floatDrawingsGo (doc : DocxDocument) (paraIdx : Nat) :
    List Drawing → List ImageRec → List ImageRec
  | [], acc => acc
  | d :: rest, acc => floatDrawingsGo doc paraIdx rest (floatPicsGo doc paraIdx d d.pics acc)

def floatParasGo (doc : DocxDocument) :
    Nat → List Paragraph → List ImageRec → List ImageRec
  | _, [], acc => acc
  | i, para :: rest, acc =>
    floatParasGo doc (i + 1) rest (floatDrawingsGo doc i para.searchDrawings acc)

/-- Source: `DOCXExtractor._extract_floating_images`: walk every `w:drawing`
reachable from each paragraph element (which includes the drawings
inside the paragraph's runs) and every `a:blip` inside each drawing. -/
def extractFloatingImages (doc : DocxDocument) : List ImageRec :=
  floatParasGo doc 0 doc.paragraphs []

/-- Source: `DOCXExtractor.extract_images` = inline pass then floating pass. -/
def docxExtractImages (doc : DocxDocument) : List ImageRec :=
  extractInlineImages doc ++ extractFloatingImages doc

/-! ### DOCX assembler -/

/-- The fields of the pydantic `AltTextResult` model that the assemblers
read.  The model declares `image_id`, `alt_text` (with
`min_length=1, max_length=250`), `confidence_score`,
`validation_passed`, `validation_warnings`, `tokens_used`,
`processing_time_seconds` and `timestamp` — and no `is_decorative`
field. -/
structure AltTextResultM where
  image_id : String
  alt_text : String
deriving Repr, DecidableEq

/-- The pydantic length constraint on `AltTextResult.alt_text`:
`min_length=1, max_length=250`.  An instance violating it cannot be
constructed (`ValidationError`). -/
def validAltText (r : AltTextResultM) : Bool :=
  decide (1 ≤ r.alt_text.length) && decide (r.alt_text.length ≤ 250)

def dedupPics : List Pic → List Nat → List Pic
  | [], _ => []
  | p :: rest, seen =>
    if p.elemId ∈ seen then dedupPics rest seen
    else p :: dedupPics rest (p.elemId :: seen)

def Paragraph.runPics (para : Paragraph) : List Pic :=
  ((para.runs.map (fun r => r.drawings.map Drawing.pics)).flatten).flatten

def Paragraph.searchPics (para : Paragraph) : List Pic :=
  (para.searchDrawings.map Drawing.pics).flatten

/-- Source: `DOCXAssembler._find_images_in_paragraph`: collect every `pic:pic`
under each run, then every `pic:pic` under the paragraph element,
deduplicating by element identity (`id(shape)`) with one seen-set
across both loops. -/
def findImagesInParagraph (para : Paragraph) : List Pic :=
  dedupPics (para.runPics ++ para.searchPics) []

/-- Source: `DOCXAssembler._set_alt_text_on_element`: `False` (here `none`) when
the `pic:nvPicPr` or `pic:cNvPr` child is missing, otherwise set both
`title` and `descr` attributes and return `True`. -/
def setAltTextOnElement (p : Pic) (t : String) : Option Pic :=
  if p.hasNvPicPr then
    if p.hasCNvPr then some { p with cNvPrTitle := some t, cNvPrDescr := some t }
    else none
  else none

def attrErrMsg : String := "\x27AltTextResult\x27 object has no attribute \x27is_decorative\x27"

/-- The id-parsing `try` block of `DOCXAssembler._apply_alt_text_to_image`:
`parts = image_id.split("-")`, `int(parts[1])`, `int(parts[2])`; `none`
models the caught `IndexError`/`ValueError`. -/
def docxParseId (s : String) : Option (Nat × Nat) :=
  let parts := pySplit '-' s
  match parts.get? 1, parts.get? 2 with
  | some s1, some s2 =>
    match pyInt? s1, pyInt? s2 with
    | some paragraphIdx, some imageIdx => some (paragraphIdx, imageIdx)
    | _, _ => none
  | _, _ => none

/-- Source: `DOCXAssembler._apply_alt_text_to_image`.  `.ok s` is a returned
status, `.error msg` an uncaught exception (turned into
`"failed: {msg}"` by the caller's `except`).  After the image is
located the source evaluates `result.is_decorative`; the pydantic
`AltTextResult` model has no such field, so that line raises
`AttributeError` — consequently no branch of this function mutates the
document. -/
def docxApplyToImage (doc : DocxDocument) (r : AltTextResultM) : Except String String :=
  match docxParseId r.image_id with
  | none => .ok "failed: invalid image_id format"
  | some (paragraphIdx, imageIdx) =>
    if paragraphIdx ≥ doc.paragraphs.length then
      .ok "failed: paragraph index out of range"
    else
      match doc.paragraphs.get? paragraphIdx with
      | none => .ok "failed: paragraph index out of range"
      | some para =>
        let imagesFound := findImagesInParagraph para
        if imagesFound = [] then .ok "failed: no images found in paragraph"
        else if imageIdx ≥ imagesFound.length then
          .ok "failed: image index out of range"
        else .error attrErrMsg

/-- The status `DOCXAssembler.apply_alt_text` records for one result. -/
def docxStatusOf (doc : DocxDocument) (r : AltTextResultM) : String :=
  match docxApplyToImage doc r with
  | .ok s => s
  | .error e => "failed: " ++ e

/-- Python dict assignment `status_map[k] = v`. -/
def mapInsert (m : List (String × String)) (k v : String) : List (String × String) :=
  if m.any (fun kv => kv.1 = k) then m.map (fun kv => if kv.1 = k then (k, v) else kv)
  else m ++ [(k, v)]

def docxApplyStep (doc : DocxDocument) (m : List (String × String))
    (r : AltTextResultM) : List (String × String) :=
  mapInsert m r.image_id (docxStatusOf doc r)

/-- Source: `DOCXAssembler.apply_alt_text`: one status per result.  (No branch
of `_apply_alt_text_to_image` reaches a mutation, see above, so the
document needs no threading.) -/
def docxApplyAll (doc : DocxDocument) (rs : List AltTextResultM) :
    List (String × String) :=
  rs.foldl (docxApplyStep doc) []

/-! ### PPTX document tree

A `PShape` embeds one shape of a slide: its element identity, its
python-pptx classification (`shape.shape_type == MSO_SHAPE_TYPE.PICTURE`),
its `name` property, its image resource (`shape.image`; `none` models a
raised access), the `p:cNvPr` element the assembler's
`find('.//p:cNvPr')` sees (`hasCNvPr`) with its `title`/`descr`
attributes, a flag for the inner XML write raising, its EMU geometry,
and `other`, an opaque stand-in for every remaining visual property
(rotation, effects, z-order, grouping).  python-pptx's typed
`shape.name` setter writes through a different access path than the
assembler's string-qualified `find`, so it stays writable even when
`hasCNvPr` is false. -/

structure PShape where
  shapeElemId : Nat
  isPicture : Bool
  name : String
  image : Option ImagePart
  hasCNvPr : Bool
  cNvPrTitle : Option String
  cNvPrDescr : Option String
  xmlUpdateRaises : Bool
  left : Int
  top : Int
  width : Int
  height : Int
  other : Nat
deriving Repr, DecidableEq

structure Slide where
  shapes : List PShape
  titleShapeText : Option String
deriving Repr, DecidableEq

structure Presentation where
  slides : List Slide
deriving Repr, DecidableEq

/-- Source: `PPTXExtractor._extract_slide_title`: the title placeholder's text,
stripped, if non-empty. -/
def slideTitle (sl : Slide) : Option String :=
  match sl.titleShapeText with
  | some t => if pyStrip t = "" then none else some (pyStrip t)
  | none => none

/-- Source: `title and title.strip()` truthiness followed by `title.strip()`. -/
def strippedTruthy : Option String → Option String
  | some t => if t ≠ "" ∧ pyStrip t ≠ "" then some (pyStrip t) else none
  | none => none

def cNvPrAlt (s : PShape) : Option String :=
  if s.hasCNvPr then
    Option.orElse (strippedTruthy s.cNvPrTitle) (fun _ => strippedTruthy s.cNvPrDescr)
  else none

/-- Source: `PPTXExtractor._extract_alt_text_from_shape`: a non-default shape
name (not starting with `"Picture"`/`"Image"` after stripping) wins,
else the `p:cNvPr` `title`/`descr` attributes. -/
def shapeAltText (s : PShape) : Option String :=
  if s.name ≠ "" then
    let n := pyStrip s.name
    if pyStartsWith "Picture" n || pyStartsWith "Image" n then cNvPrAlt s
    else some n
  else cNvPrAlt s

/-- Source: `PPTXExtractor._extract_image_from_shape` (the caller has already
checked `shape.shape_type == MSO_SHAPE_TYPE.PICTURE`). -/
def extractShape? (i j : Nat) (title : Option String) (s : PShape) :
    Option ImageRec :=
  match s.image with
  | none => none
  | some part =>
    match part.pilSize with
    | none => none
    | some (w, h) =>
      let fmt := normFormat (formatFromContentType part.contentType)
      let image_id := mkPptxId i j
      mkImageMetadata? image_id (image_id ++ "." ++ pyLower fmt) fmt
        part.blob.length w h (some (i + 1))
        (Position.pptx i j s.left s.top s.width s.height title) (shapeAltText s)

/-- Source: `for shape_idx, shape in enumerate(slide.shapes)` of
`PPTXExtractor._extract_images_from_slide`; the id index is the
enumerate index over *all* shapes, pictures or not. -/
def slideImagesGo (i : Nat) (title : Option String) :
    Nat → List PShape → List ImageRec
  | _, [] => []
  | j, s :: rest =>
    if s.isPicture then
      match extractShape? i j title s with
      | some r => r :: slideImagesGo i title (j + 1) rest
      | none => slideImagesGo i title (j + 1) rest
    else slideImagesGo i title (j + 1) rest

def pptxSlidesGo : Nat → List Slide → List ImageRec
  | _, [] => []
  | i, sl :: rest =>
    slideImagesGo i (slideTitle sl) 0 sl.shapes ++ pptxSlidesGo (i + 1) rest

/-- Source: `PPTXExtractor.extract_images`. -/
def pptxExtractImages (p : Presentation) : List ImageRec :=
  pptxSlidesGo 0 p.slides

/-! ### PPTX assembler -/

/-- Id parsing of `PPTXAssembler._apply_alt_text_to_image`:
`parts = image_id.split("_")`,
`int(parts[0].replace("slide", ""))`, `int(parts[1].replace("shape", ""))`;
`none` models the caught `IndexError`/`ValueError`. -/
def pptxParseId (s : String) : Option (Nat × Nat) :=
  let parts := pySplit '_' s
  match parts.get? 0, parts.get? 1 with
  | some p0, some p1 =>
    match pyInt? (pyRemoveAll "slide" p0), pyInt? (pyRemoveAll "shape" p1) with
    | some i, some j => some (i, j)
    | _, _ => none
  | _, _ => none

/-- Source: `PPTXAssembler._find_picture_shape`: scan the slide's shapes
counting only picture shapes and return the index (into
`slide.shapes`) of the `target`-th picture. -/
def findPicIdxGo (target : Nat) : List PShape → Nat → Nat → Option Nat
  | [], _, _ => none
  | s :: rest, absIdx, count =>
    if s.isPicture then
      if count = target then some absIdx
      else findPicIdxGo target rest (absIdx + 1) (count + 1)
    else findPicIdxGo target rest (absIdx + 1) count

def findPicIdx (sl : Slide) (target : Nat) : Option Nat :=
  findPicIdxGo target sl.shapes 0 0

/-- Source: `PPTXAssembler._set_alt_text_on_shape`: always sets `shape.name`;
sets the `cNvPr` `title`/`descr` attributes only when the element is
found and the write does not raise (a raise is caught and logged); the
function returns `True` in all of these cases. -/
def setAltTextOnShape (s : PShape) (t : String) : PShape :=
  let s1 := { s with name := t }
  if s1.hasCNvPr && !s1.xmlUpdateRaises then
    { s1 with cNvPrTitle := some t, cNvPrDescr := some t }
  else s1

/-- Source: `PPTXAssembler._apply_alt_text_to_image`: status and the updated
presentation.  (`_set_alt_text_on_shape` returns `False` only if the
`shape.name` assignment itself raises, which python-pptx's typed setter
does not do on a picture shape, so the `"failed: could not set
alt-text"` branch is unreachable here.) -/
def pptxApplyToImage (p : Presentation) (r : AltTextResultM) :
    String × Presentation :=
  match pptxParseId r.image_id with
  | none => ("failed: invalid image_id format", p)
  | some (slideIdx, shapeIdx) =>
    if slideIdx ≥ p.slides.length then ("failed: slide index out of range", p)
    else
      match p.slides.get? slideIdx with
      | none => ("failed: slide index out of range", p)
      | some sl =>
        match findPicIdx sl shapeIdx with
        | none => ("failed: picture shape not found", p)
        | some absIdx =>
          match sl.shapes.get? absIdx with
          | none => ("failed: picture shape not found", p)
          | some s =>
            ("success",
              ⟨p.slides.set slideIdx
                { sl with shapes := sl.shapes.set absIdx (setAltTextOnShape s r.alt_text) }⟩)

def pptxApplyStep (acc : List (String × String) × Presentation)
    (r : AltTextResultM) : List (String × String) × Presentation :=
  (mapInsert acc.1 r.image_id (pptxApplyToImage acc.2 r).1,
   (pptxApplyToImage acc.2 r).2)

/-- Source: `PPTXAssembler.apply_alt_text`: thread the presentation through the
per-result applications, recording one status per result. -/
def pptxApplyAll (p : Presentation) (rs : List AltTextResultM) :
    List (String × String) × Presentation :=
  rs.foldl pptxApplyStep ([], p)

/-! ### PDF extractor (read-only) -/

/-- One entry of `page.get_images(full=True)`: the xref plus the result
of `extract_image` (`bytes`, `ext`) and of `PIL.Image.open`; `none`
models a raised extraction/decode error, caught per image. -/
structure PdfImageInfo where
  xref : Nat
  image : Option (List Nat × String × Option (Nat × Nat))
deriving Repr, DecidableEq

structure PdfPage where
  images : List PdfImageInfo
deriving Repr, DecidableEq

structure PdfDocument where
  pages : List PdfPage
deriving Repr, DecidableEq

/-- Source: `PDFExtractor._extract_image_from_info`. -/
def extractPdfImage? (pageIdx imgIdx : Nat) (info : PdfImageInfo) :
    Option ImageRec :=
  match info.image with
  | none => none
  | some (bytes, ext, pil) =>
    match pil with
    | none => none
    | some (w, h) =>
      let fmt := normFormat (pyUpper ext)
      let image_id := mkPdfId pageIdx imgIdx
      mkImageMetadata? image_id (image_id ++ "." ++ pyLower fmt) fmt
        bytes.length w h (some (pageIdx + 1))
        (Position.pdf pageIdx imgIdx info.xref) none

def pdfPageGo (pageIdx : Nat) : Nat → List PdfImageInfo → List ImageRec
  | _, [] => []
  | j, info :: rest =>
    match extractPdfImage? pageIdx j info with
    | some r => r :: pdfPageGo pageIdx (j + 1) rest
    | none => pdfPageGo pageIdx (j + 1) rest

def pdfPagesGo : Nat → List PdfPage → List ImageRec
  | _, [] => []
  | i, pg :: rest => pdfPageGo i 0 pg.images ++ pdfPagesGo (i + 1) rest

/-- Source: `PDFExtractor.extract_images`. -/
def pdfExtractImages (d : PdfDocument) : List ImageRec :=
  pdfPagesGo 0 d.pages

/-! ### Image normalizer (spec-modelled) -/

/-- Modelled from the spec: the repository has no implementation of the
§4.2 Image Normalizer under `src/` (the `ImageMetadata.format` literal
set is its only trace in the source), so the component is modelled from
the spec's words.  A `PyImage` is a decoded raster image: PIL-style
mode, dimensions, RGBA pixel grid, and palette-transparency flag. -/
structure PyImage where
  mode : String
  width : Nat
  height : Nat
  pixels : List (Nat × Nat × Nat × Nat)
  paletteTransparent : Bool
deriving Repr, DecidableEq

/-- Modelled from the spec: an image "has an alpha channel or palette
transparency" when its mode carries alpha (`RGBA`/`LA`) or it is a
palette image with a transparency entry. -/
def hasTransparency (img : PyImage) : Bool :=
  img.mode = "RGBA" || img.mode = "LA" || (img.mode = "P" && img.paletteTransparent)

/-- Modelled from the spec: composite one RGBA pixel onto an opaque
white background (standard over-operator with 8-bit alpha). -/
def compositeWhite (px : Nat × Nat × Nat × Nat) : Nat × Nat × Nat × Nat :=
  ((px.1 * px.2.2.2 + 255 * (255 - px.2.2.2)) / 255,
   (px.2.1 * px.2.2.2 + 255 * (255 - px.2.2.2)) / 255,
   (px.2.2.1 * px.2.2.2 + 255 * (255 - px.2.2.2)) / 255,
   255)

/-- Modelled from the spec: flatten an image onto an opaque white
background, yielding an opaque RGB image of the same dimensions. -/
def flattenWhite (img : PyImage) : PyImage :=
  ⟨"RGB", img.width, img.height, img.pixels.map compositeWhite, false⟩

def whitePixel : Nat × Nat × Nat × Nat := (255, 255, 255, 255)

/-- Modelled from the spec: a canonical PNG serialization (magic tag,
dimensions, pixel stream); what matters for the claims is that it is a
function of the decoded image. -/
def encodePNG (img : PyImage) : List Nat :=
  137 :: 80 :: 78 :: 71 :: img.width :: img.height ::
    (img.pixels.map (fun p => [p.1, p.2.1, p.2.2.1, p.2.2.2])).flatten

/-- Input of the normalizer: the raw bytes, the declared format, and
the image those bytes decode to. -/
structure NormInput where
  rawBytes : List Nat
  declaredFormat : String
  image : PyImage
deriving Repr, DecidableEq

/-- Modelled from the spec, §4.2 rules in order: (1) declared format
outside {JPEG, PNG, GIF, BMP} → re-encode to PNG; (2) alpha or palette
transparency → flatten onto white, re-encode as PNG; (3) else pass the
bytes through unchanged.  Returns
`(normalized_bytes, display_format, width, height)` with the dimensions
read from the final image. -/
def normalize (inp : NormInput) : List Nat × String × Nat × Nat :=
  if ¬ (inp.declaredFormat ∈ allowedFormats) then
    (encodePNG inp.image, "PNG", inp.image.width, inp.image.height)
  else if hasTransparency inp.image then
    ((encodePNG (flattenWhite inp.image)), "PNG",
      (flattenWhite inp.image).width, (flattenWhite inp.image).height)
  else
    (inp.rawBytes, inp.declaredFormat, inp.image.width, inp.image.height)

/-! ### Derived notions used by the theorems -/

/-- The fields of an `ImageRec` that do not depend on the running id
counter (everything except `image_id` and the filename built from it). -/
structure RecCore where
  format : String
  size_bytes : Nat
  width_pixels : Nat
  height_pixels : Nat
  page_number : Option Nat
  position : Position
  existing_alt_text : Option String
deriving Repr, DecidableEq

def ImageRec.core (r : ImageRec) : RecCore :=
  ⟨r.format, r.size_bytes, r.width_pixels, r.height_pixels, r.page_number,
   r.position, r.existing_alt_text⟩

def drawingAttempts (i : Nat) (d : Drawing) : List (Nat × Drawing × Pic) :=
  d.pics.map (fun p => (i, d, p))

def runAttempts (i : Nat) (r : Run) : List (Nat × Drawing × Pic) :=
  (r.drawings.map (drawingAttempts i)).flatten

/-- The inline-pass extraction attempts of one paragraph, in traversal
order: one per `a:blip` reachable from the paragraph's runs. -/
def paraInlineAttempts (i : Nat) (para : Paragraph) : List (Nat × Drawing × Pic) :=
  (para.runs.map (runAttempts i)).flatten

def inlineAttemptsGo : Nat → List Paragraph → List (Nat × Drawing × Pic)
  | _, [] => []
  | i, para :: rest => paraInlineAttempts i para ++ inlineAttemptsGo (i + 1) rest

/-- All inline-pass extraction attempts of a document. -/
def inlineAttempts (doc : DocxDocument) : List (Nat × Drawing × Pic) :=
  inlineAttemptsGo 0 doc.paragraphs

/-- The id-independent outcome of one inline extraction attempt. -/
def inlineAttemptCore? (doc : DocxDocument) (a : Nat × Drawing × Pic) :
    Option RecCore :=
  (extractInlineBlip? doc a.1 0 a.2.1 a.2.2).map ImageRec.core

/-- Corrupt one binary part of a DOCX package so that `Image.open`
raises on it. -/
def corruptPart (doc : DocxDocument) (rId : String) : DocxDocument :=
  { doc with
    relatedParts := doc.relatedParts.map
      (fun kv => if kv.1 = rId then (kv.1, { kv.2 with pilSize := none }) else kv) }

/-- Corrupt the image resource of shape `j` of slide `i` so that
accessing it raises. -/
def corruptShapeAt (p : Presentation) (i j : Nat) : Presentation :=
  match p.slides.get? i with
  | none => p
  | some sl =>
    match sl.shapes.get? j with
    | none => p
    | some s =>
      ⟨p.slides.set i { sl with shapes := sl.shapes.set j { s with image := none } }⟩

/-- Python dict lookup `status_map[k]` (first entry with the key). -/
def mapLookup (m : List (String × String)) (k : String) : Option String :=
  match m with
  | [] => none
  | kv :: t => if kv.1 = k then some kv.2 else mapLookup t k

/-- Number of distinct image elements (`pic:pic`/`a:blip` nodes)
reachable in a DOCX document tree. -/
def docxTotalPics (doc : DocxDocument) : Nat :=
  (doc.paragraphs.map (fun para => para.searchPics.length)).sum

/-! ### Concrete example documents -/

def exPngPart : ImagePart := ⟨[10, 20, 30, 40], "image/png", some (100, 100)⟩

def exPic : Pic := ⟨1, some "rId4", true, true, none, none⟩

def exDrawing : Drawing := ⟨none, none, [exPic]⟩

def emptyPara : Paragraph := ⟨[], []⟩

def imgPara : Paragraph := ⟨[⟨[exDrawing]⟩], []⟩

/-- A DOCX with one inline image anchored in paragraph 3 (and no other
image), the §8 spec scenario. -/
def exDocx : DocxDocument :=
  ⟨[emptyPara, emptyPara, emptyPara, imgPara], [("rId4", exPngPart)]⟩

/-- A DOCX with one inline image in paragraph 0. -/
def exDocx0 : DocxDocument := ⟨[imgPara], [("rId4", exPngPart)]⟩

/-- One paragraph holding two distinct image elements whose binary
content is identical (same relationship part). -/
def dupPara : Paragraph :=
  ⟨[⟨[⟨none, none,
      [⟨1, some "rId4", true, true, none, none⟩,
       ⟨2, some "rId4", true, true, none, none⟩]⟩]⟩], []⟩

def dupDocx : DocxDocument := ⟨[dupPara], [("rId4", exPngPart)]⟩

def imgParaAt (rId : String) (eid : Nat) : Paragraph :=
  ⟨[⟨[⟨none, none, [⟨eid, some rId, true, true, none, none⟩]⟩]⟩], []⟩

/-- Three paragraphs, one inline image each, with distinct
relationship ids. -/
def exDocx3 : DocxDocument :=
  ⟨[imgParaAt "rId1" 1, imgParaAt "rId2" 2, imgParaAt "rId3" 3],
   [("rId1", exPngPart), ("rId2", exPngPart), ("rId3", exPngPart)]⟩

def exShape (eid : Nat) (pic : Bool) (nm : String) : PShape :=
  ⟨eid, pic, nm, if pic then some exPngPart else none, true, none, none,
   false, 10, 20, 30, 40, eid * 7⟩

/-- Slide 0 holds exactly two picture shapes (and a title), the §8
spec scenario. -/
def presTwoPics : Presentation :=
  ⟨[⟨[exShape 1 true "Picture 1", exShape 2 true "Picture 2"], some "Intro"⟩]⟩

/-- Slide 0 holds a text box followed by one picture shape. -/
def presTextboxPic : Presentation :=
  ⟨[⟨[exShape 3 false "TextBox 1", exShape 4 true "Picture 9"], none⟩]⟩

/-- A two-slide presentation with one picture per slide. -/
def presTwoSlides : Presentation :=
  ⟨[⟨[exShape 1 true "Picture 1"], none⟩, ⟨[exShape 2 true "Picture 2"], none⟩]⟩

/-- One slide with three picture shapes. -/
def presThreePics : Presentation :=
  ⟨[⟨[exShape 1 true "Picture 1", exShape 2 true "Picture 2",
      exShape 3 true "Picture 3"], none⟩]⟩

/-- A picture shape under which `find('.//p:cNvPr')` finds nothing. -/
def shapeNoCNvPr : PShape :=
  ⟨5, true, "Picture 5", some exPngPart, false, none, none, false, 0, 0, 10, 10, 3⟩

def presNoCNvPr : Presentation := ⟨[⟨[shapeNoCNvPr], none⟩]⟩

def exOpaqueImg : PyImage := ⟨"RGB", 2, 1, [(10, 20, 30, 255), (40, 50, 60, 255)], false⟩

def exTransparentImg : PyImage := ⟨"RGBA", 2, 1, [(10, 20, 30, 0), (200, 100, 0, 0)], false⟩

def exNormOpaque : NormInput := ⟨[1, 2, 3], "JPEG", exOpaqueImg⟩

def exNormTransparent : NormInput := ⟨[7, 8, 9], "PNG", exTransparentImg⟩

def exNormWmf : NormInput := ⟨[5, 5], "WMF", exOpaqueImg⟩

/-! ## Foundational lemmas

Numeral injectivity, digit-character facts and the underscore
separator lemma that the id-uniqueness proofs rest on. -/

theorem digitChar_mem_decDigits {m : Nat} (h : m < 10) :
    Nat.digitChar m ∈ decDigits := by
  interval_cases m <;> decide

theorem digitVal_digitChar {m : Nat} (h : m < 10) :
    digitVal (Nat.digitChar m) = m := by
  interval_cases m <;> decide

theorem toDigitsCore_append (fuel : Nat) :
    ∀ (n : Nat) (ds : List Char),
      Nat.toDigitsCore 10 fuel n ds = Nat.toDigitsCore 10 fuel n [] ++ ds := by
  induction fuel with
  | zero => intro n ds; simp [Nat.toDigitsCore]
  | succ fuel ih =>
    intro n ds
    simp only [Nat.toDigitsCore]
    by_cases h : n / 10 = 0
    · simp [h]
    · simp only [h, if_false]
      rw [ih (n / 10) (Nat.digitChar (n % 10) :: ds),
        ih (n / 10) (Nat.digitChar (n % 10) :: [])]
      simp

theorem valOfDigits_append_singleton (l : List Char) (c : Char) :
    valOfDigits (l ++ [c]) = 10 * valOfDigits l + digitVal c := by
  simp [valOfDigits, List.foldl_append]

theorem valOfDigits_toDigitsCore (fuel : Nat) :
    ∀ n : Nat, n < fuel → valOfDigits (Nat.toDigitsCore 10 fuel n []) = n := by
  induction fuel with
  | zero => intro n h; omega
  | succ fuel ih =>
    intro n h
    simp only [Nat.toDigitsCore]
    by_cases h0 : n / 10 = 0
    · have hn : n < 10 := by omega
      simp only [h0, if_true]
      have : valOfDigits [Nat.digitChar (n % 10)] = digitVal (Nat.digitChar (n % 10)) := by
        simp [valOfDigits]
      rw [this, digitVal_digitChar (Nat.mod_lt _ (by omega))]
      omega
    · have hdiv : n / 10 < n := Nat.div_lt_self (by omega) (by omega)
      simp only [h0, if_false]
      rw [toDigitsCore_append fuel (n / 10) [Nat.digitChar (n % 10)]]
      rw [valOfDigits_append_singleton]
      rw [ih (n / 10) (by omega)]
      rw [digitVal_digitChar (Nat.mod_lt _ (by omega))]
      omega

theorem mem_toDigitsCore_decDigits (fuel : Nat) :
    ∀ (n : Nat) (ds : List Char), (∀ c ∈ ds, c ∈ decDigits) →
      ∀ c ∈ Nat.toDigitsCore 10 fuel n ds, c ∈ decDigits := by
  induction fuel with
  | zero => intro n ds hds; simpa [Nat.toDigitsCore] using hds
  | succ fuel ih =>
    intro n ds hds
    simp only [Nat.toDigitsCore]
    have hd : Nat.digitChar (n % 10) ∈ decDigits :=
      digitChar_mem_decDigits (Nat.mod_lt _ (by omega))
    by_cases h0 : n / 10 = 0
    · simp only [h0, if_true]
      intro c hc
      rcases List.mem_cons.mp hc with rfl | hc
      · exact hd
      · exact hds c hc
    · simp only [h0, if_false]
      refine ih (n / 10) _ ?_
      intro c hc
      rcases List.mem_cons.mp hc with rfl | hc
      · exact hd
      · exact hds c hc

theorem repr_data_eq (n : Nat) : (Nat.repr n).data = Nat.toDigits 10 n := by
  rfl

theorem mem_repr_decDigits (n : Nat) :
    ∀ c ∈ (Nat.repr n).data, c ∈ decDigits := by
  rw [repr_data_eq]
  exact mem_toDigitsCore_decDigits (n + 1) n [] (by intro c hc; cases hc)

theorem underscore_not_mem_repr (n : Nat) : '_' ∉ (Nat.repr n).data := by
  intro h
  have := mem_repr_decDigits n '_' h
  simp [decDigits] at this

theorem repr_injective : Function.Injective Nat.repr := by
  intro m n h
  have hdata : (Nat.repr m).data = (Nat.repr n).data := by rw [h]
  rw [repr_data_eq, repr_data_eq] at hdata
  have hm := valOfDigits_toDigitsCore (m + 1) m (by omega)
  have hn := valOfDigits_toDigitsCore (n + 1) n (by omega)
  simp only [Nat.toDigits] at hdata
  rw [← hm, ← hn, hdata]

/-! ### Separator splitting

Every id produced by the source has the form
`<letters><digits>'_'<letters><digits>` with exactly one underscore; the
next lemma recovers both components from the full string. -/

theorem append_underscore_cancel :
    ∀ (xs ys us vs : List Char), '_' ∉ xs → '_' ∉ ys →
      xs ++ '_' :: us = ys ++ '_' :: vs → xs = ys ∧ us = vs := by
  intro xs
  induction xs with
  | nil =>
    intro ys us vs _ hy h
    cases ys with
    | nil => simpa using h
    | cons b ys =>
      simp only [List.nil_append, List.cons_append, List.cons.injEq] at h
      exact absurd (h.1 ▸ List.mem_cons_self b ys) (by simpa [← h.1] using hy)
  | cons a xs ih =>
    intro ys us vs hx hy h
    cases ys with
    | nil =>
      simp only [List.cons_append, List.nil_append, List.cons.injEq] at h
      exact absurd (h.1 ▸ List.mem_cons_self a xs) (by simpa [h.1] using hx)
    | cons b ys =>
      simp only [List.cons_append, List.cons.injEq] at h
      obtain ⟨rfl, h2⟩ := h
      have := ih ys us vs (fun hm => hx (List.mem_cons_of_mem _ hm))
        (fun hm => hy (List.mem_cons_of_mem _ hm)) h2
      exact ⟨by rw [this.1], this.2⟩

theorem mkInlineId_data (p n : Nat) :
    (mkInlineId p n).data =
      ("para".data ++ (Nat.repr p).data)
        ++ '_' :: ("img".data ++ (Nat.repr n).data) := by
  simp [mkInlineId, String.data_append]

theorem mkFloatId_data (p n : Nat) :
    (mkFloatId p n).data =
      ("para".data ++ (Nat.repr p).data)
        ++ '_' :: ("float".data ++ (Nat.repr n).data) := by
  simp [mkFloatId, String.data_append]

theorem mkPptxId_data (i j : Nat) :
    (mkPptxId i j).data =
      ("slide".data ++ (Nat.repr i).data)
        ++ '_' :: ("shape".data ++ (Nat.repr j).data) := by
  simp [mkPptxId, String.data_append]

theorem mkPdfId_data (i j : Nat) :
    (mkPdfId i j).data =
      ("page".data ++ (Nat.repr i).data)
        ++ '_' :: ("img".data ++ (Nat.repr j).data) := by
  simp [mkPdfId, String.data_append]

theorem underscore_not_mem_letters_repr (letters : List Char)
    (hl : '_' ∉ letters) (p : Nat) : '_' ∉ letters ++ (Nat.repr p).data := by
  intro h
  rcases List.mem_append.mp h with h | h
  · exact hl h
  · exact underscore_not_mem_repr p h

theorem two_part_id_eq {l1 l2 : List Char} {p q n m : Nat} {m1 m2 : List Char}
    (hl1 : '_' ∉ l1) (hl2 : '_' ∉ l2)
    (h : (l1 ++ (Nat.repr p).data) ++ '_' :: (m1 ++ (Nat.repr n).data)
        = (l2 ++ (Nat.repr q).data) ++ '_' :: (m2 ++ (Nat.repr m).data)) :
    l1 ++ (Nat.repr p).data = l2 ++ (Nat.repr q).data
      ∧ m1 ++ (Nat.repr n).data = m2 ++ (Nat.repr m).data :=
  append_underscore_cancel _ _ _ _
    (underscore_not_mem_letters_repr l1 hl1 p)
    (underscore_not_mem_letters_repr l2 hl2 q) h

theorem mkInlineId_inj {p n q m : Nat} (h : mkInlineId p n = mkInlineId q m) :
    p = q ∧ n = m := by
  have hd := congrArg String.data h
  rw [mkInlineId_data, mkInlineId_data] at hd
  have hs := two_part_id_eq (by decide) (by decide) hd
  refine ⟨repr_injective ?_, repr_injective ?_⟩
  · have := List.append_cancel_left hs.1
    exact String.ext this
  · have := List.append_cancel_left hs.2
    exact String.ext this

theorem mkFloatId_inj {p n q m : Nat} (h : mkFloatId p n = mkFloatId q m) :
    p = q ∧ n = m := by
  have hd := congrArg String.data h
  rw [mkFloatId_data, mkFloatId_data] at hd
  have hs := two_part_id_eq (by decide) (by decide) hd
  refine ⟨repr_injective ?_, repr_injective ?_⟩
  · have := List.append_cancel_left hs.1
    exact String.ext this
  · have := List.append_cancel_left hs.2
    exact String.ext this

theorem mkInlineId_ne_mkFloatId (p n q m : Nat) : mkInlineId p n ≠ mkFloatId q m := by
  intro h
  have hd := congrArg String.data h
  rw [mkInlineId_data, mkFloatId_data] at hd
  have hs := two_part_id_eq (by decide) (by decide) hd
  have := hs.2
  simp at this

theorem mkPptxId_inj {p n q m : Nat} (h : mkPptxId p n = mkPptxId q m) :
    p = q ∧ n = m := by
  have hd := congrArg String.data h
  rw [mkPptxId_data, mkPptxId_data] at hd
  have hs := two_part_id_eq (by decide) (by decide) hd
  refine ⟨repr_injective ?_, repr_injective ?_⟩
  · have := List.append_cancel_left hs.1
    exact String.ext this
  · have := List.append_cancel_left hs.2
    exact String.ext this

theorem mkPdfId_inj {p n q m : Nat} (h : mkPdfId p n = mkPdfId q m) :
    p = q ∧ n = m := by
  have hd := congrArg String.data h
  rw [mkPdfId_data, mkPdfId_data] at hd
  have hs := two_part_id_eq (by decide) (by decide) hd
  refine ⟨repr_injective ?_, repr_injective ?_⟩
  · have := List.append_cancel_left hs.1
    exact String.ext this
  · have := List.append_cancel_left hs.2
    exact String.ext this

/-! ## Claim C1: extract/apply round trip -/

/-- C1: the claim says that applying an assignment with an id emitted by
extraction, against the same unmodified document, always resolves with
status `"success"`.  The code refutes this: the DOCX extractor emits
`"para3_img0"` for the §8 scenario document, and the DOCX assembler
parses only `"img-{p}-{i}"`, so that very id fails with
`"failed: invalid image_id format"`; the PPTX extractor indexes shapes
by their absolute position (a picture behind one text box gets
`"slide0_shape1"`), while the PPTX assembler counts only picture
shapes, so the same id fails with
`"failed: picture shape not found"`. -/
theorem c1_roundtrip_fails_on_extracted_ids :
    ((docxExtractImages exDocx).map (fun r => r.image_id)
        = ["para3_img0", "para3_float0"]
      ∧ docxStatusOf exDocx ⟨"para3_img0", "A chart."⟩
          = "failed: invalid image_id format")
    ∧ ((pptxExtractImages presTextboxPic).map (fun r => r.image_id)
        = ["slide0_shape1"]
      ∧ (pptxApplyToImage presTextboxPic ⟨"slide0_shape1", "A chart."⟩).1
          = "failed: picture shape not found") := by
  decide

/-! ## Claim C2: DOCX id scheme -/

/-- C2: the claim says a DOCX image in paragraph 3 gets
`image_id = "img-3-0"`.  The extractor actually emits
`f"para{para_idx}_img{len(images)}"` (and a duplicate
`f"para{para_idx}_float{len(images)}"` from the floating pass), so the
§8 scenario document yields `"para3_img0"` and `"para3_float0"`. -/
theorem c2_docx_id_scheme_diverges :
    (docxExtractImages exDocx).map (fun r => r.image_id)
        = ["para3_img0", "para3_float0"]
      ∧ "para3_img0" ≠ "img-3-0" := by
  decide

/-! ## Claim C4: deduplication by element identity -/

/-- C4 counterexample: a DOCX whose tree holds exactly one image
element yields two `ImageRecord`s from `extract_images` (one from the
inline-run search, one from the whole-paragraph drawing search), so
extraction does not emit exactly one record per distinct element. -/
theorem c4_counterexample_extraction_duplicates :
    docxTotalPics exDocx = 1 ∧ (docxExtractImages exDocx).length = 2 := by
  decide

/-! ## Claim C5: decorative assignments -/

/-- C5: the claim says an empty-text (decorative) assignment sets an
explicit empty marker and records `"success-decorative"`.  The code
refutes this three ways: the pydantic `AltTextResult` model rejects
empty text (`min_length=1`), the assembler's decorative branch reads
`result.is_decorative` which the model does not declare (so every
assignment that resolves to an image fails with the `AttributeError`
message), and the status string the dead branch would produce is
`"success (decorative)"`, not `"success-decorative"`. -/
theorem c5_decorative_path_broken :
    validAltText ⟨"img-0-0", ""⟩ = false
      ∧ docxStatusOf exDocx0 ⟨"img-0-0", "A chart."⟩
          = "failed: \x27AltTextResult\x27 object has no attribute \x27is_decorative\x27"
      ∧ docxStatusOf exDocx0 ⟨"img-0-0", "A chart."⟩ ≠ "success-decorative"
      ∧ docxStatusOf exDocx0 ⟨"img-0-0", "A chart."⟩ ≠ "success (decorative)" := by
  decide

/-! ## Claim C6: image normalizer -/

/-- C6: `normalize` re-encodes to PNG when the declared format is
outside {JPEG, PNG, GIF, BMP}; flattens images with alpha or palette
transparency onto an opaque white background as PNG; otherwise passes
the bytes through unchanged (byte-identical for an opaque RGB image);
and a fully transparent RGBA image normalizes to a fully white opaque
image of the same dimensions. -/
theorem c6_normalize_rules (inp : NormInput) :
    (inp.declaredFormat ∉ allowedFormats →
      normalize inp = (encodePNG inp.image, "PNG", inp.image.width, inp.image.height))
    ∧ (inp.declaredFormat ∈ allowedFormats → hasTransparency inp.image = true →
      normalize inp = (encodePNG (flattenWhite inp.image), "PNG",
        inp.image.width, inp.image.height))
    ∧ (inp.declaredFormat ∈ allowedFormats → hasTransparency inp.image = false →
      normalize inp = (inp.rawBytes, inp.declaredFormat,
        inp.image.width, inp.image.height))
    ∧ (inp.declaredFormat ∈ allowedFormats → inp.image.mode = "RGB" →
      (normalize inp).1 = inp.rawBytes)
    ∧ (inp.declaredFormat ∈ allowedFormats → inp.image.mode = "RGBA" →
      (∀ px ∈ inp.image.pixels, px.2.2.2 = 0) →
      (normalize inp).1
        = encodePNG ⟨"RGB", inp.image.width, inp.image.height,
            List.replicate inp.image.pixels.length whitePixel, false⟩
      ∧ (normalize inp).2.2 = (inp.image.width, inp.image.height)) := by
  obtain ⟨raw, fmt, mode, w, h, pxs, pal⟩ := inp
  refine ⟨?_, ?_, ?_, ?_, ?_⟩
  · intro hf
    simp [normalize, hf, flattenWhite]
  · intro hf ht
    simp [normalize, hf, ht, flattenWhite]
  · intro hf ht
    simp [normalize, hf, ht]
  · intro hf hmode
    subst hmode
    have ht : hasTransparency ⟨"RGB", w, h, pxs, pal⟩ = false := by
      simp [hasTransparency]
    simp [normalize, hf, ht]
  · intro hf hmode hpx
    subst hmode
    have ht : hasTransparency ⟨"RGBA", w, h, pxs, pal⟩ = true := by
      simp [hasTransparency]
    have hflat : pxs.map compositeWhite = List.replicate pxs.length whitePixel := by
      rw [List.eq_replicate_iff]
      refine ⟨by simp, ?_⟩
      intro b hb
      rcases List.mem_map.mp hb with ⟨px, hpm, rfl⟩
      have ha := hpx px hpm
      simp [compositeWhite, ha, whitePixel]
    refine ⟨?_, ?_⟩
    · simp only [normalize, hf, ht]
      simp [flattenWhite, hflat]
    · simp [normalize, hf, ht, flattenWhite]

/-- C6 witness: the rules evaluated at concrete inputs — an opaque
2×1 RGB JPEG passes through byte-identically, a fully transparent 2×1
RGBA PNG flattens to all-white, a WMF re-encodes to PNG. -/
theorem c6_normalize_rules_witness :
    exNormOpaque.declaredFormat ∈ allowedFormats
    ∧ hasTransparency exNormOpaque.image = false
    ∧ normalize exNormOpaque
        = (exNormOpaque.rawBytes, exNormOpaque.declaredFormat,
           exNormOpaque.image.width, exNormOpaque.image.height)
    ∧ (normalize exNormTransparent).1
        = encodePNG ⟨"RGB", exNormTransparent.image.width,
            exNormTransparent.image.height,
            List.replicate exNormTransparent.image.pixels.length whitePixel, false⟩
    ∧ ("WMF" ∉ allowedFormats
        ∧ normalize exNormWmf
            = (encodePNG exNormWmf.image, "PNG", exNormWmf.image.width,
               exNormWmf.image.height)) :=
  ⟨by decide, by decide,
   (c6_normalize_rules exNormOpaque).2.2.1 (by decide) (by decide),
   ((c6_normalize_rules exNormTransparent).2.2.2.2 (by decide) (by decide)
     (by decide)).1,
   ⟨by decide, (c6_normalize_rules exNormWmf).1 (by decide)⟩⟩

/-! ## Claim C10: PPTX success without attribute write -/

/-- C10: whenever the parsed slide index and picture ordinal of an
assignment resolve to an existing picture shape, the PPTX assembler
records `"success"` — even when `find('.//p:cNvPr')` finds nothing or
the XML `title`/`descr` write raises, in which case those attributes
are left untouched. -/
theorem c10_success_without_attribute_write (p : Presentation)
    (r : AltTextResultM) (i j absIdx : Nat) (sl : Slide) (s : PShape)
    (hparse : pptxParseId r.image_id = some (i, j))
    (hsl : p.slides.get? i = some sl)
    (habs : findPicIdx sl j = some absIdx)
    (hs : sl.shapes.get? absIdx = some s) :
    (pptxApplyToImage p r).1 = "success"
    ∧ (s.hasCNvPr = false →
        (setAltTextOnShape s r.alt_text).cNvPrTitle = s.cNvPrTitle
        ∧ (setAltTextOnShape s r.alt_text).cNvPrDescr = s.cNvPrDescr)
    ∧ (s.xmlUpdateRaises = true →
        (setAltTextOnShape s r.alt_text).cNvPrTitle = s.cNvPrTitle
        ∧ (setAltTextOnShape s r.alt_text).cNvPrDescr = s.cNvPrDescr) := by
  have hlt : i < p.slides.length := by
    by_contra hge
    rw [List.get?_eq_none.mpr (by omega)] at hsl
    exact Option.noConfusion hsl
  refine ⟨?_, ?_, ?_⟩
  · simp only [pptxApplyToImage, hparse]
    rw [if_neg (by omega)]
    rw [hsl]
    simp only [findPicIdx] at habs
    simp only [findPicIdx, habs, hs]
  · intro hc
    constructor <;> simp [setAltTextOnShape, hc]
  · intro hx
    constructor <;> simp [setAltTextOnShape, hx]

/-- C10 witness: a one-slide presentation whose only shape is a picture
without a findable `cNvPr`: applying `"slide0_shape0"` yields
`"success"` while `title`/`descr` stay unset. -/
theorem c10_witness :
    (pptxApplyToImage presNoCNvPr ⟨"slide0_shape0", "A chart."⟩).1 = "success"
    ∧ (setAltTextOnShape shapeNoCNvPr "A chart.").cNvPrTitle
        = shapeNoCNvPr.cNvPrTitle
    ∧ (setAltTextOnShape shapeNoCNvPr "A chart.").cNvPrDescr
        = shapeNoCNvPr.cNvPrDescr :=
  have h := c10_success_without_attribute_write presNoCNvPr
    ⟨"slide0_shape0", "A chart."⟩ 0 0 0 ⟨[shapeNoCNvPr], none⟩ shapeNoCNvPr
    (by decide) (by decide) (by decide) (by decide)
  ⟨h.1, (h.2.1 (by decide)).1, (h.2.1 (by decide)).2⟩

/-! ## Claim C3: PPTX single-target frame effect -/

/-- C3: on a presentation whose slide 0 carries exactly two picture
shapes (the second at shape index 1, so its extracted id is
`"slide0_shape1"`), applying one assignment with that id succeeds and
replaces only the second shape with `setAltTextOnShape` of itself —
every other shape and slide is unchanged, and the rewritten shape keeps
its identity, classification, image, geometry and all remaining visual
properties. -/
theorem c3_single_target_frame_effect (p : Presentation) (sl : Slide)
    (rest : List Slide) (a b : PShape) (cs : List PShape) (txt : String)
    (hp : p.slides = sl :: rest) (hsh : sl.shapes = a :: b :: cs)
    (ha : a.isPicture = true) (hb : b.isPicture = true)
    (hcs : ∀ c ∈ cs, c.isPicture = false) :
    (pptxApplyToImage p ⟨"slide0_shape1", txt⟩).1 = "success"
    ∧ (pptxApplyToImage p ⟨"slide0_shape1", txt⟩).2.slides
        = { sl with shapes := a :: setAltTextOnShape b txt :: cs } :: rest
    ∧ (setAltTextOnShape b txt).shapeElemId = b.shapeElemId
    ∧ (setAltTextOnShape b txt).isPicture = b.isPicture
    ∧ (setAltTextOnShape b txt).image = b.image
    ∧ (setAltTextOnShape b txt).left = b.left
    ∧ (setAltTextOnShape b txt).top = b.top
    ∧ (setAltTextOnShape b txt).width = b.width
    ∧ (setAltTextOnShape b txt).height = b.height
    ∧ (setAltTextOnShape b txt).other = b.other := by
  have hparse : pptxParseId "slide0_shape1" = some (0, 1) := by decide
  have happ :
      pptxApplyToImage p ⟨"slide0_shape1", txt⟩
        = ("success",
            ⟨p.slides.set 0
              { sl with shapes := sl.shapes.set 1 (setAltTextOnShape b txt) }⟩) := by
    have hget : p.slides.get? 0 = some sl := by rw [hp]; rfl
    have hfind : findPicIdx sl 1 = some 1 := by
      simp only [findPicIdx, hsh, findPicIdxGo, ha, hb]
      rfl
    have hgets : sl.shapes.get? 1 = some b := by rw [hsh]; rfl
    simp only [pptxApplyToImage, hparse]
    rw [if_neg (by simp [hp])]
    simp only [hget, hfind, hgets]
  refine ⟨by rw [happ], ?_, ?_, ?_, ?_, ?_, ?_, ?_, ?_, ?_⟩
  · rw [happ, hp, hsh]
    rfl
  all_goals simp [setAltTextOnShape]
  all_goals split <;> rfl

/-- C3 witness: the two-picture slide with title `"Intro"`; applying
`"slide0_shape1"` succeeds and rewrites only the second shape. -/
theorem c3_witness :
    (pptxApplyToImage presTwoPics ⟨"slide0_shape1", "A bar chart."⟩).1 = "success"
    ∧ (pptxApplyToImage presTwoPics ⟨"slide0_shape1", "A bar chart."⟩).2.slides
        = [⟨[exShape 1 true "Picture 1",
             setAltTextOnShape (exShape 2 true "Picture 2") "A bar chart."],
            some "Intro"⟩] :=
  have h := c3_single_target_frame_effect presTwoPics
    ⟨[exShape 1 true "Picture 1", exShape 2 true "Picture 2"], some "Intro"⟩ []
    (exShape 1 true "Picture 1") (exShape 2 true "Picture 2") [] "A bar chart."
    rfl rfl (by decide) (by decide) (by intro c hc; cases hc)
  ⟨h.1, h.2.1⟩

/-! ## Status-map lemmas -/

theorem lookup_replace_self (k v : String) :
    ∀ m : List (String × String), m.any (fun kv => kv.1 = k) →
      mapLookup (m.map (fun kv => if kv.1 = k then (k, v) else kv)) k = some v := by
  intro m
  induction m with
  | nil => intro h; simp at h
  | cons kv t ih =>
    intro h
    by_cases hk : kv.1 = k
    · simp only [List.map_cons, if_pos hk, mapLookup]
      rfl
    · simp only [List.map_cons, if_neg hk, mapLookup]
      refine ih ?_
      simp only [List.any_cons, hk] at h
      simpa using h

theorem lookup_append_self (k v : String) :
    ∀ m : List (String × String), ¬ m.any (fun kv => kv.1 = k) →
      mapLookup (m ++ [(k, v)]) k = some v := by
  intro m
  induction m with
  | nil => intro h; simp [mapLookup]
  | cons kv t ih =>
    intro h
    simp only [List.any_cons, Bool.or_eq_true, not_or] at h
    have hk : kv.1 ≠ k := fun hh => h.1 (by simpa using hh)
    simp only [List.cons_append, mapLookup, if_neg hk]
    exact ih (by simpa using h.2)

theorem lookup_replace_ne (k v k2 : String) (h : k2 ≠ k) :
    ∀ m : List (String × String),
      mapLookup (m.map (fun kv => if kv.1 = k then (k, v) else kv)) k2
        = mapLookup m k2 := by
  intro m
  induction m with
  | nil => rfl
  | cons kv t ih =>
    by_cases hk : kv.1 = k
    · simp only [List.map_cons, if_pos hk, mapLookup]
      rw [if_neg (by simpa using Ne.symm h), if_neg (by rw [hk]; exact Ne.symm h)]
      exact ih
    · simp only [List.map_cons, if_neg hk, mapLookup]
      by_cases hkk : kv.1 = k2
      · rw [if_pos hkk, if_pos hkk]
      · rw [if_neg hkk, if_neg hkk]
        exact ih

theorem lookup_append_ne (k v k2 : String) (h : k2 ≠ k) :
    ∀ m : List (String × String),
      mapLookup (m ++ [(k, v)]) k2 = mapLookup m k2 := by
  intro m
  induction m with
  | nil => simp [mapLookup, Ne.symm h]
  | cons kv t ih =>
    simp only [List.cons_append, mapLookup]
    by_cases hkk : kv.1 = k2
    · rw [if_pos hkk, if_pos hkk]
    · rw [if_neg hkk, if_neg hkk]
      exact ih

theorem mapLookup_mapInsert_self (m : List (String × String)) (k v : String) :
    mapLookup (mapInsert m k v) k = some v := by
  simp only [mapInsert, mapLookup]
  by_cases hany : m.any (fun kv => kv.1 = k)
  · rw [if_pos hany]
    exact lookup_replace_self k v m hany
  · rw [if_neg hany]
    exact lookup_append_self k v m hany

theorem mapLookup_mapInsert_ne (m : List (String × String)) (k v k2 : String)
    (h : k2 ≠ k) : mapLookup (mapInsert m k v) k2 = mapLookup m k2 := by
  simp only [mapInsert, mapLookup]
  by_cases hany : m.any (fun kv => kv.1 = k)
  · rw [if_pos hany]
    exact lookup_replace_ne k v k2 h m
  · rw [if_neg hany]
    exact lookup_append_ne k v k2 h m

/-! ## PPTX apply fold lemmas -/

theorem pptxFold_state_indep (rs : List AltTextResultM) :
    ∀ (p : Presentation) (m1 m2 : List (String × String)),
      (rs.foldl pptxApplyStep (m1, p)).2 = (rs.foldl pptxApplyStep (m2, p)).2 := by
  induction rs with
  | nil => intro p m1 m2; rfl
  | cons r t ih =>
    intro p m1 m2
    simp only [List.foldl_cons, pptxApplyStep]
    exact ih (pptxApplyToImage p r).2 _ _

theorem pptxFold_lookup_untouched (rs : List AltTextResultM) :
    ∀ (p : Presentation) (m : List (String × String)) (k : String),
      (∀ r ∈ rs, r.image_id ≠ k) →
      mapLookup (rs.foldl pptxApplyStep (m, p)).1 k = mapLookup m k := by
  induction rs with
  | nil => intro p m k _; rfl
  | cons r t ih =>
    intro p m k hk
    simp only [List.foldl_cons, pptxApplyStep]
    rw [ih _ _ _ (fun r2 h2 => hk r2 (List.mem_cons_of_mem _ h2))]
    exact mapLookup_mapInsert_ne _ _ _ _
      (fun hh => hk r (List.mem_cons_self _ _) hh.symm)

theorem pptxFold_lookup_init_indep (rs : List AltTextResultM) :
    ∀ (p : Presentation) (m : List (String × String)) (k : String),
      (∃ r ∈ rs, r.image_id = k) →
      mapLookup (rs.foldl pptxApplyStep (m, p)).1 k
        = mapLookup (rs.foldl pptxApplyStep ([], p)).1 k := by
  induction rs with
  | nil =>
    intro p m k hk
    rcases hk with ⟨r, hr, _⟩
    cases hr
  | cons r t ih =>
    intro p m k hk
    by_cases ht : ∃ r2 ∈ t, r2.image_id = k
    · simp only [List.foldl_cons, pptxApplyStep]
      exact (ih _ _ _ ht).trans (ih _ _ _ ht).symm
    · have hrk : r.image_id = k := by
        rcases hk with ⟨r2, hr2, hk2⟩
        rcases List.mem_cons.mp hr2 with rfl | hr2t
        · exact hk2
        · exact absurd ⟨r2, hr2t, hk2⟩ ht
      have htne : ∀ r2 ∈ t, r2.image_id ≠ k := by
        intro r2 h2 hc
        exact ht ⟨r2, h2, hc⟩
      simp only [List.foldl_cons, pptxApplyStep]
      rw [pptxFold_lookup_untouched t _ _ _ htne,
        pptxFold_lookup_untouched t _ _ _ htne]
      rw [hrk, mapLookup_mapInsert_self, mapLookup_mapInsert_self]

/-! ## Claim C7: per-assignment failure isolation -/

/-- C7: a malformed id or an out-of-range parsed position makes the
assembler record a descriptive `"failed: ..."` status for that
image_id, leave the document untouched, and process the remaining
assignments exactly as it would without the bad one; in particular
`"slide9_shape0"` against a two-slide presentation records
`"failed: slide index out of range"` while the valid assignment still
records `"success"`. -/
theorem c7_failure_isolation :
    (∀ (p : Presentation) (r : AltTextResultM) (i j : Nat),
        pptxParseId r.image_id = some (i, j) → i ≥ p.slides.length →
        pptxApplyToImage p r = ("failed: slide index out of range", p))
    ∧ (∀ (p : Presentation) (r : AltTextResultM),
        pptxParseId r.image_id = none →
        pptxApplyToImage p r = ("failed: invalid image_id format", p))
    ∧ (∀ (p : Presentation) (bad : AltTextResultM) (rest : List AltTextResultM)
        (i j : Nat) (k : String),
        pptxParseId bad.image_id = some (i, j) → i ≥ p.slides.length →
        (∃ r ∈ rest, r.image_id = k) →
        mapLookup (pptxApplyAll p (bad :: rest)).1 k
            = mapLookup (pptxApplyAll p rest).1 k
          ∧ (pptxApplyAll p (bad :: rest)).2 = (pptxApplyAll p rest).2)
    ∧ (∀ (doc : DocxDocument) (r : AltTextResultM),
        docxParseId r.image_id = none →
        docxStatusOf doc r = "failed: invalid image_id format")
    ∧ (∀ (doc : DocxDocument) (r : AltTextResultM) (a b : Nat),
        docxParseId r.image_id = some (a, b) → a ≥ doc.paragraphs.length →
        docxStatusOf doc r = "failed: paragraph index out of range")
    ∧ (mapLookup (pptxApplyAll presTwoSlides
          [⟨"slide9_shape0", "A chart."⟩, ⟨"slide0_shape0", "A chart."⟩]).1
          "slide9_shape0" = some "failed: slide index out of range"
        ∧ mapLookup (pptxApplyAll presTwoSlides
          [⟨"slide9_shape0", "A chart."⟩, ⟨"slide0_shape0", "A chart."⟩]).1
          "slide0_shape0" = some "success") := by
  refine ⟨?_, ?_, ?_, ?_, ?_, ?_⟩
  · intro p r i j hparse hge
    simp only [pptxApplyToImage, hparse]
    rw [if_pos hge]
  · intro p r hparse
    simp only [pptxApplyToImage, hparse]
  · intro p bad rest i j k hparse hge hk
    have hbad : pptxApplyToImage p bad = ("failed: slide index out of range", p) := by
      simp only [pptxApplyToImage, hparse]
      rw [if_pos hge]
    constructor
    · simp only [pptxApplyAll, List.foldl_cons, pptxApplyStep, hbad]
      exact pptxFold_lookup_init_indep rest p _ k hk
    · simp only [pptxApplyAll, List.foldl_cons, pptxApplyStep, hbad]
      exact pptxFold_state_indep rest p _ []
  · intro doc r hparse
    simp only [docxStatusOf, docxApplyToImage, hparse]
  · intro doc r a b hparse hge
    simp only [docxStatusOf, docxApplyToImage, hparse]
    rw [if_pos hge]
  · constructor <;> decide

/-- C7 witness: the general parts evaluated on the two-slide
presentation with the out-of-range assignment in front. -/
theorem c7_witness :
    pptxApplyToImage presTwoSlides ⟨"slide9_shape0", "A chart."⟩
        = ("failed: slide index out of range", presTwoSlides)
      ∧ mapLookup (pptxApplyAll presTwoSlides
          [⟨"slide9_shape0", "A chart."⟩, ⟨"slide0_shape0", "A chart."⟩]).1
          "slide0_shape0"
        = mapLookup (pptxApplyAll presTwoSlides [⟨"slide0_shape0", "A chart."⟩]).1
          "slide0_shape0"
      ∧ pptxApplyToImage presTwoSlides ⟨"not-an-id", "A chart."⟩
        = ("failed: invalid image_id format", presTwoSlides)
      ∧ docxStatusOf exDocx ⟨"img-9-0", "A chart."⟩
        = "failed: paragraph index out of range" :=
  ⟨c7_failure_isolation.1 presTwoSlides ⟨"slide9_shape0", "A chart."⟩ 9 0
      (by decide) (by decide),
   (c7_failure_isolation.2.2.1 presTwoSlides ⟨"slide9_shape0", "A chart."⟩
      [⟨"slide0_shape0", "A chart."⟩] 9 0 "slide0_shape0" (by decide) (by decide)
      ⟨⟨"slide0_shape0", "A chart."⟩, by decide, rfl⟩).1,
   c7_failure_isolation.2.1 presTwoSlides ⟨"not-an-id", "A chart."⟩ (by decide),
   c7_failure_isolation.2.2.2.2.1 exDocx ⟨"img-9-0", "A chart."⟩ 9 0
      (by decide) (by decide)⟩

/-! ## Claim C4: dedup lemmas and amended claim -/

theorem dedupPics_nodup_and_fresh :
    ∀ (l : List Pic) (seen : List Nat),
      ((dedupPics l seen).map Pic.elemId).Nodup
        ∧ ∀ e ∈ (dedupPics l seen).map Pic.elemId, e ∉ seen := by
  intro l
  induction l with
  | nil => intro seen; exact ⟨List.nodup_nil, by intro e he; cases he⟩
  | cons p rest ih =>
    intro seen
    by_cases hp : p.elemId ∈ seen
    · simpa [dedupPics, hp] using ih seen
    · have ih2 := ih (p.elemId :: seen)
      simp only [dedupPics, hp, if_false, List.map_cons]
      constructor
      · refine List.nodup_cons.mpr ⟨?_, ih2.1⟩
        intro hmem
        exact (ih2.2 _ hmem) (List.mem_cons_self _ _)
      · intro e he
        rcases List.mem_cons.mp he with rfl | he2
        · exact hp
        · exact fun hs => (ih2.2 e he2) (List.mem_cons_of_mem _ hs)

theorem dedupPics_covers :
    ∀ (l : List Pic) (seen : List Nat) (p : Pic), p ∈ l →
      p.elemId ∈ seen ∨ p.elemId ∈ (dedupPics l seen).map Pic.elemId := by
  intro l
  induction l with
  | nil => intro seen p hp; cases hp
  | cons q rest ih =>
    intro seen p hp
    by_cases hq : q.elemId ∈ seen
    · simp only [dedupPics, hq, if_true]
      rcases List.mem_cons.mp hp with rfl | hp2
      · exact Or.inl hq
      · exact ih seen p hp2
    · simp only [dedupPics, hq, if_false, List.map_cons]
      rcases List.mem_cons.mp hp with rfl | hp2
      · exact Or.inr (List.mem_cons_self _ _)
      · rcases ih (q.elemId :: seen) p hp2 with hin | hin
        · rcases List.mem_cons.mp hin with heq | hseen
          · exact Or.inr (heq ▸ List.mem_cons_self _ _)
          · exact Or.inl hseen
        · exact Or.inr (List.mem_cons_of_mem _ hin)

/-- C4 (amended): extraction does not deduplicate — each search pass
emits one record per blip it reaches, so two distinct elements with
identical binary content yield one record each per pass; deduplication
by element identity happens in the assembler's per-paragraph discovery
`_find_images_in_paragraph`, which lists each distinct reachable
element exactly once. -/
theorem c4_amended_dedup_in_assembler :
    (∀ para : Paragraph, ((findImagesInParagraph para).map Pic.elemId).Nodup)
    ∧ (∀ (para : Paragraph) (p : Pic), p ∈ para.runPics ++ para.searchPics →
        p.elemId ∈ (findImagesInParagraph para).map Pic.elemId)
    ∧ ((docxExtractImages dupDocx).length = 4
        ∧ (findImagesInParagraph dupPara).map Pic.elemId = [1, 2]) := by
  refine ⟨?_, ?_, by decide⟩
  · intro para
    exact (dedupPics_nodup_and_fresh _ []).1
  · intro para p hp
    rcases dedupPics_covers (para.runPics ++ para.searchPics) [] p hp with h | h
    · cases h
    · exact h

/-- C4 amended-claim witness: the duplicate-content paragraph — both
elements appear once each in the assembler's discovery list. -/
theorem c4_amended_witness :
    ((findImagesInParagraph dupPara).map Pic.elemId).Nodup
      ∧ (1 : Nat) ∈ (findImagesInParagraph dupPara).map Pic.elemId
      ∧ (2 : Nat) ∈ (findImagesInParagraph dupPara).map Pic.elemId :=
  ⟨c4_amended_dedup_in_assembler.1 dupPara,
   c4_amended_dedup_in_assembler.2.1 dupPara
     ⟨1, some "rId4", true, true, none, none⟩ (by decide),
   c4_amended_dedup_in_assembler.2.1 dupPara
     ⟨2, some "rId4", true, true, none, none⟩ (by decide)⟩

/-! ## Claim C9: id uniqueness -/

theorem mkImageMetadata?_id {iid f fm : String} {sz w h : Nat}
    {pg : Option Nat} {pos : Position} {alt : Option String} {r : ImageRec}
    (hr : mkImageMetadata? iid f fm sz w h pg pos alt = some r) :
    r.image_id = iid := by
  unfold mkImageMetadata? at hr
  split at hr
  · injection hr with h2
    rw [← h2]
  · cases hr

theorem extractInlineBlip?_id {doc : DocxDocument} {i c : Nat} {d : Drawing}
    {p : Pic} {r : ImageRec} (h : extractInlineBlip? doc i c d p = some r) :
    r.image_id = mkInlineId i c := by
  unfold extractInlineBlip? at h
  cases hemb : p.embedRId with
  | none => simp [hemb] at h
  | some rId =>
    simp only [hemb] at h
    by_cases hr0 : rId = ""
    · simp [if_pos hr0] at h
    · rw [if_neg hr0] at h
      cases hfp : doc.findPart rId with
      | none => simp [hfp] at h
      | some part =>
        simp only [hfp] at h
        cases hps : part.pilSize with
        | none => simp [hps] at h
        | some wh =>
          simp only [hps] at h
          obtain ⟨w, ht⟩ := wh
          exact mkImageMetadata?_id h

theorem floatBlipStep_id {doc : DocxDocument} {i c : Nat} {d : Drawing}
    {p : Pic} {r : ImageRec} (h : floatBlipStep doc i c d p = .ok (some r)) :
    r.image_id = mkFloatId i c := by
  unfold floatBlipStep at h
  cases hemb : p.embedRId with
  | none => simp [hemb] at h
  | some rId =>
    simp only [hemb] at h
    by_cases hr0 : rId = ""
    · simp [if_pos hr0] at h
    · rw [if_neg hr0] at h
      cases hfp : doc.findPart rId with
      | none => simp [hfp] at h
      | some part =>
        simp only [hfp] at h
        cases hps : part.pilSize with
        | none => simp [hps] at h
        | some wh =>
          simp only [hps] at h
          obtain ⟨w, ht⟩ := wh
          cases hmk : mkImageMetadata? (mkFloatId i c)
              (mkFloatId i c ++ "." ++ pyLower (normFormat (formatFromContentType part.contentType)))
              (normFormat (formatFromContentType part.contentType))
              part.blob.length w ht none (Position.docx i "floating")
              (drawingAltText d) with
          | none => simp [hmk] at h
          | some r2 =>
            simp only [hmk] at h
            injection h with h2
            injection h2 with h3
            rw [← h3]
            exact mkImageMetadata?_id hmk

theorem extractShape?_id {i j : Nat} {title : Option String} {s : PShape}
    {r : ImageRec} (h : extractShape? i j title s = some r) :
    r.image_id = mkPptxId i j := by
  unfold extractShape? at h
  cases him : s.image with
  | none => simp [him] at h
  | some part =>
    simp only [him] at h
    cases hps : part.pilSize with
    | none => simp [hps] at h
    | some wh =>
      simp only [hps] at h
      obtain ⟨w, ht⟩ := wh
      exact mkImageMetadata?_id h

theorem extractPdfImage?_id {i j : Nat} {info : PdfImageInfo} {r : ImageRec}
    (h : extractPdfImage? i j info = some r) : r.image_id = mkPdfId i j := by
  unfold extractPdfImage? at h
  cases him : info.image with
  | none => simp [him] at h
  | some bep =>
    simp only [him] at h
    obtain ⟨bytes, ext, pil⟩ := bep
    cases hps : pil with
    | none => simp [hps] at h
    | some wh =>
      simp only [hps] at h
      obtain ⟨w, ht⟩ := wh
      exact mkImageMetadata?_id h

/-- The accumulated records of a DOCX pass carry the pass's id at their
own list position. -/
def IdShape (mk : Nat → Nat → String) (acc : List ImageRec) : Prop :=
  ∀ (k : Nat) (r : ImageRec), acc.get? k = some r → ∃ p, r.image_id = mk p k

theorem idShape_nil (mk : Nat → Nat → String) : IdShape mk [] := by
  intro k r h
  rw [List.get?_eq_none.mpr (by simp)] at h
  cases h

theorem idShape_append {mk : Nat → Nat → String} {acc : List ImageRec}
    {r : ImageRec} {p : Nat} (hacc : IdShape mk acc)
    (hr : r.image_id = mk p acc.length) : IdShape mk (acc ++ [r]) := by
  intro k r2 hk
  by_cases h : k < acc.length
  · rw [List.get?_append h] at hk
    exact hacc k r2 hk
  · have hge : acc.length ≤ k := Nat.le_of_not_lt h
    rw [List.get?_append_right hge] at hk
    rcases Nat.lt_or_ge k (acc.length + 1) with hlt | hge2
    · have hk0 : k = acc.length := by omega
      subst hk0
      simp only [Nat.sub_self, List.get?] at hk
      injection hk with h2
      exact ⟨p, by rw [← h2, hr]⟩
    · rw [List.get?_eq_none.mpr (by simp; omega)] at hk
      cases hk

theorem idShape_nodup {mk : Nat → Nat → String}
    (hinj : ∀ {p n q m : Nat}, mk p n = mk q m → n = m)
    {acc : List ImageRec} (hacc : IdShape mk acc) :
    (acc.map (fun r => r.image_id)).Nodup := by
  have hpw : acc.Pairwise (fun a b => a.image_id ≠ b.image_id) := by
    rw [List.pairwise_iff_get]
    intro i j hij heq
    obtain ⟨pi, hpi⟩ := hacc i (acc.get i) (List.get?_eq_get i.isLt)
    obtain ⟨pj, hpj⟩ := hacc j (acc.get j) (List.get?_eq_get j.isLt)
    have : (i : Nat) = (j : Nat) := hinj (by rw [← hpi, ← hpj, heq])
    omega
  exact List.Pairwise.map _ (fun a b hab => hab) hpw

theorem idShape_mem {mk : Nat → Nat → String} {acc : List ImageRec}
    (hacc : IdShape mk acc) {s : String}
    (hs : s ∈ acc.map (fun r => r.image_id)) : ∃ p n, s = mk p n := by
  rcases List.mem_map.mp hs with ⟨r, hr, rfl⟩
  rcases List.mem_iff_get?.mp hr with ⟨k, hk⟩
  rcases hacc k r hk with ⟨p, hp⟩
  exact ⟨p, k, hp⟩

theorem inlinePicsGo_shape (doc : DocxDocument) (i : Nat) (d : Drawing) :
    ∀ (pics : List Pic) (acc : List ImageRec), IdShape mkInlineId acc →
      IdShape mkInlineId (inlinePicsGo doc i d pics acc) := by
  intro pics
  induction pics with
  | nil => intro acc h; exact h
  | cons p rest ih =>
    intro acc h
    simp only [inlinePicsGo]
    cases hext : extractInlineBlip? doc i acc.length d p with
    | none => exact ih acc h
    | some r => exact ih _ (idShape_append h (extractInlineBlip?_id hext))

theorem inlineDrawingsGo_shape (doc : DocxDocument) (i : Nat) :
    ∀ (ds : List Drawing) (acc : List ImageRec), IdShape mkInlineId acc →
      IdShape mkInlineId (inlineDrawingsGo doc i ds acc) := by
  intro ds
  induction ds with
  | nil => intro acc h; exact h
  | cons d rest ih =>
    intro acc h
    exact ih _ (inlinePicsGo_shape doc i d d.pics acc h)

theorem inlineRunsGo_shape (doc : DocxDocument) (i : Nat) :
    ∀ (rs : List Run) (acc : List ImageRec), IdShape mkInlineId acc →
      IdShape mkInlineId (inlineRunsGo doc i rs acc) := by
  intro rs
  induction rs with
  | nil => intro acc h; exact h
  | cons r rest ih =>
    intro acc h
    exact ih _ (inlineDrawingsGo_shape doc i r.drawings acc h)

theorem inlineParasGo_shape (doc : DocxDocument) :
    ∀ (paras : List Paragraph) (i : Nat) (acc : List ImageRec),
      IdShape mkInlineId acc →
      IdShape mkInlineId (inlineParasGo doc i paras acc) := by
  intro paras
  induction paras with
  | nil => intro i acc h; exact h
  | cons para rest ih =>
    intro i acc h
    exact ih _ _ (inlineRunsGo_shape doc i para.runs acc h)

theorem extractInlineImages_shape (doc : DocxDocument) :
    IdShape mkInlineId (extractInlineImages doc) :=
  inlineParasGo_shape doc doc.paragraphs 0 [] (idShape_nil _)

theorem floatPicsGo_shape (doc : DocxDocument) (i : Nat) (d : Drawing) :
    ∀ (pics : List Pic) (acc : List ImageRec), IdShape mkFloatId acc →
      IdShape mkFloatId (floatPicsGo doc i d pics acc) := by
  intro pics
  induction pics with
  | nil => intro acc h; exact h
  | cons p rest ih =>
    intro acc h
    simp only [floatPicsGo]
    cases hext : floatBlipStep doc i acc.length d p with
    | error e => exact h
    | ok o =>
      cases o with
      | none => exact ih acc h
      | some r => exact ih _ (idShape_append h (floatBlipStep_id hext))

theorem floatDrawingsGo_shape (doc : DocxDocument) (i : Nat) :
    ∀ (ds : List Drawing) (acc : List ImageRec), IdShape mkFloatId acc →
      IdShape mkFloatId (floatDrawingsGo doc i ds acc) := by
  intro ds
  induction ds with
  | nil => intro acc h; exact h
  | cons d rest ih =>
    intro acc h
    exact ih _ (floatPicsGo_shape doc i d d.pics acc h)

theorem floatParasGo_shape (doc : DocxDocument) :
    ∀ (paras : List Paragraph) (i : Nat) (acc : List ImageRec),
      IdShape mkFloatId acc →
      IdShape mkFloatId (floatParasGo doc i paras acc) := by
  intro paras
  induction paras with
  | nil => intro i acc h; exact h
  | cons para rest ih =>
    intro i acc h
    exact ih _ _ (floatDrawingsGo_shape doc i para.searchDrawings acc h)

theorem extractFloatingImages_shape (doc : DocxDocument) :
    IdShape mkFloatId (extractFloatingImages doc) :=
  floatParasGo_shape doc doc.paragraphs 0 [] (idShape_nil _)

theorem docx_ids_nodup (doc : DocxDocument) :
    ((docxExtractImages doc).map (fun r => r.image_id)).Nodup := by
  rw [docxExtractImages, List.map_append]
  refine List.Nodup.append ?_ ?_ ?_
  · exact idShape_nodup (fun h => (mkInlineId_inj h).2)
      (extractInlineImages_shape doc)
  · exact idShape_nodup (fun h => (mkFloatId_inj h).2)
      (extractFloatingImages_shape doc)
  · intro s hs1 hs2
    rcases idShape_mem (extractInlineImages_shape doc) hs1 with ⟨p, n, rfl⟩
    rcases idShape_mem (extractFloatingImages_shape doc) hs2 with ⟨q, m, hq⟩
    exact mkInlineId_ne_mkFloatId p n q m hq

theorem slideImagesGo_mem_id (i : Nat) (title : Option String) :
    ∀ (j : Nat) (shapes : List PShape) (r : ImageRec),
      r ∈ slideImagesGo i title j shapes →
      ∃ k, j ≤ k ∧ r.image_id = mkPptxId i k := by
  intro j shapes
  induction shapes generalizing j with
  | nil => intro r hr; cases hr
  | cons s rest ih =>
    intro r hr
    simp only [slideImagesGo] at hr
    by_cases hp : s.isPicture
    · rw [if_pos hp] at hr
      cases hext : extractShape? i j title s with
      | none =>
        rw [hext] at hr
        rcases ih (j + 1) r hr with ⟨k, hk, hid⟩
        exact ⟨k, by omega, hid⟩
      | some r0 =>
        rw [hext] at hr
        rcases List.mem_cons.mp hr with rfl | hr2
        · exact ⟨j, Nat.le_refl j, extractShape?_id hext⟩
        · rcases ih (j + 1) r hr2 with ⟨k, hk, hid⟩
          exact ⟨k, by omega, hid⟩
    · rw [if_neg hp] at hr
      rcases ih (j + 1) r hr with ⟨k, hk, hid⟩
      exact ⟨k, by omega, hid⟩

theorem slideImagesGo_nodup (i : Nat) (title : Option String) :
    ∀ (j : Nat) (shapes : List PShape),
      ((slideImagesGo i title j shapes).map (fun r => r.image_id)).Nodup := by
  intro j shapes
  induction shapes generalizing j with
  | nil => exact List.nodup_nil
  | cons s rest ih =>
    simp only [slideImagesGo]
    by_cases hp : s.isPicture
    · rw [if_pos hp]
      cases hext : extractShape? i j title s with
      | none => exact ih (j + 1)
      | some r0 =>
        simp only [List.map_cons]
        refine List.nodup_cons.mpr ⟨?_, ih (j + 1)⟩
        intro hmem
        rcases List.mem_map.mp hmem with ⟨r, hr, hid⟩
        rcases slideImagesGo_mem_id i title (j + 1) rest r hr with ⟨k, hk, hk2⟩
        have hj : j = k := by
          have := (extractShape?_id hext).symm.trans (hid.symm.trans hk2)
          exact (mkPptxId_inj this).2
        omega
    · rw [if_neg hp]
      exact ih (j + 1)

theorem pptxSlidesGo_mem_id :
    ∀ (slides : List Slide) (i : Nat) (r : ImageRec),
      r ∈ pptxSlidesGo i slides → ∃ a b, i ≤ a ∧ r.image_id = mkPptxId a b := by
  intro slides
  induction slides with
  | nil => intro i r hr; cases hr
  | cons sl rest ih =>
    intro i r hr
    rcases List.mem_append.mp hr with h | h
    · rcases slideImagesGo_mem_id i (slideTitle sl) 0 sl.shapes r h with ⟨k, _, hid⟩
      exact ⟨i, k, Nat.le_refl i, hid⟩
    · rcases ih (i + 1) r h with ⟨a, b, ha, hid⟩
      exact ⟨a, b, by omega, hid⟩

theorem pptxSlidesGo_nodup :
    ∀ (slides : List Slide) (i : Nat),
      ((pptxSlidesGo i slides).map (fun r => r.image_id)).Nodup := by
  intro slides
  induction slides with
  | nil => intro i; exact List.nodup_nil
  | cons sl rest ih =>
    intro i
    simp only [pptxSlidesGo, List.map_append]
    refine List.Nodup.append (slideImagesGo_nodup i (slideTitle sl) 0 sl.shapes)
      (ih (i + 1)) ?_
    intro s hs1 hs2
    rcases List.mem_map.mp hs1 with ⟨r1, hr1, hid1⟩
    rcases List.mem_map.mp hs2 with ⟨r2, hr2, hid2⟩
    rcases slideImagesGo_mem_id i (slideTitle sl) 0 sl.shapes r1 hr1 with ⟨k, _, hk⟩
    rcases pptxSlidesGo_mem_id rest (i + 1) r2 hr2 with ⟨a, b, ha, hab⟩
    have heq : mkPptxId i k = mkPptxId a b := by
      rw [← hk, ← hab, hid1, hid2]
    have := (mkPptxId_inj heq).1
    omega

theorem pdfPageGo_mem_id (i : Nat) :
    ∀ (j : Nat) (infos : List PdfImageInfo) (r : ImageRec),
      r ∈ pdfPageGo i j infos → ∃ k, j ≤ k ∧ r.image_id = mkPdfId i k := by
  intro j infos
  induction infos generalizing j with
  | nil => intro r hr; cases hr
  | cons info rest ih =>
    intro r hr
    simp only [pdfPageGo] at hr
    cases hext : extractPdfImage? i j info with
    | none =>
      rw [hext] at hr
      rcases ih (j + 1) r hr with ⟨k, hk, hid⟩
      exact ⟨k, by omega, hid⟩
    | some r0 =>
      rw [hext] at hr
      rcases List.mem_cons.mp hr with rfl | hr2
      · exact ⟨j, Nat.le_refl j, extractPdfImage?_id hext⟩
      · rcases ih (j + 1) r hr2 with ⟨k, hk, hid⟩
        exact ⟨k, by omega, hid⟩

theorem pdfPageGo_nodup (i : Nat) :
    ∀ (j : Nat) (infos : List PdfImageInfo),
      ((pdfPageGo i j infos).map (fun r => r.image_id)).Nodup := by
  intro j infos
  induction infos generalizing j with
  | nil => exact List.nodup_nil
  | cons info rest ih =>
    simp only [pdfPageGo]
    cases hext : extractPdfImage? i j info with
    | none => exact ih (j + 1)
    | some r0 =>
      simp only [List.map_cons]
      refine List.nodup_cons.mpr ⟨?_, ih (j + 1)⟩
      intro hmem
      rcases List.mem_map.mp hmem with ⟨r, hr, hid⟩
      rcases pdfPageGo_mem_id i (j + 1) rest r hr with ⟨k, hk, hk2⟩
      have hj : j = k := by
        have := (extractPdfImage?_id hext).symm.trans (hid.symm.trans hk2)
        exact (mkPdfId_inj this).2
      omega

theorem pdfPagesGo_mem_id :
    ∀ (pages : List PdfPage) (i : Nat) (r : ImageRec),
      r ∈ pdfPagesGo i pages → ∃ a b, i ≤ a ∧ r.image_id = mkPdfId a b := by
  intro pages
  induction pages with
  | nil => intro i r hr; cases hr
  | cons pg rest ih =>
    intro i r hr
    rcases List.mem_append.mp hr with h | h
    · rcases pdfPageGo_mem_id i 0 pg.images r h with ⟨k, _, hid⟩
      exact ⟨i, k, Nat.le_refl i, hid⟩
    · rcases ih (i + 1) r h with ⟨a, b, ha, hid⟩
      exact ⟨a, b, by omega, hid⟩

theorem pdfPagesGo_nodup :
    ∀ (pages : List PdfPage) (i : Nat),
      ((pdfPagesGo i pages).map (fun r => r.image_id)).Nodup := by
  intro pages
  induction pages with
  | nil => intro i; exact List.nodup_nil
  | cons pg rest ih =>
    intro i
    simp only [pdfPagesGo, List.map_append]
    refine List.Nodup.append (pdfPageGo_nodup i 0 pg.images) (ih (i + 1)) ?_
    intro s hs1 hs2
    rcases List.mem_map.mp hs1 with ⟨r1, hr1, hid1⟩
    rcases List.mem_map.mp hs2 with ⟨r2, hr2, hid2⟩
    rcases pdfPageGo_mem_id i 0 pg.images r1 hr1 with ⟨k, _, hk⟩
    rcases pdfPagesGo_mem_id rest (i + 1) r2 hr2 with ⟨a, b, ha, hab⟩
    have heq : mkPdfId i k = mkPdfId a b := by
      rw [← hk, ← hab, hid1, hid2]
    have := (mkPdfId_inj heq).1
    omega

/-- C9: for any DOCX, PPTX or PDF document, the `image_id`s of all
records returned by one `extract_images` call are pairwise distinct. -/
theorem c9_id_uniqueness :
    (∀ doc : DocxDocument,
      ((docxExtractImages doc).map (fun r => r.image_id)).Nodup)
    ∧ (∀ p : Presentation,
      ((pptxExtractImages p).map (fun r => r.image_id)).Nodup)
    ∧ (∀ d : PdfDocument,
      ((pdfExtractImages d).map (fun r => r.image_id)).Nodup) :=
  ⟨docx_ids_nodup,
   fun p => pptxSlidesGo_nodup p.slides 0,
   fun d => pdfPagesGo_nodup d.pages 0⟩

/-- C9 witness: uniqueness evaluated on the concrete example
documents. -/
theorem c9_witness :
    ((docxExtractImages exDocx3).map (fun r => r.image_id)).Nodup
      ∧ ((pptxExtractImages presThreePics).map (fun r => r.image_id)).Nodup :=
  ⟨c9_id_uniqueness.1 exDocx3, c9_id_uniqueness.2.1 presThreePics⟩

/-! ## Claim C8: continue-on-error -/

theorem mkImageMetadata?_core (iid1 f1 iid2 f2 fm : String) (sz w h : Nat)
    (pg : Option Nat) (pos : Position) (alt : Option String) :
    (mkImageMetadata? iid1 f1 fm sz w h pg pos alt).map ImageRec.core
      = (mkImageMetadata? iid2 f2 fm sz w h pg pos alt).map ImageRec.core := by
  unfold mkImageMetadata?
  split_ifs
  · rfl
  · rfl

theorem extractInlineBlip?_core (doc : DocxDocument) (i : Nat) (d : Drawing)
    (p : Pic) (c : Nat) :
    (extractInlineBlip? doc i c d p).map ImageRec.core
      = (extractInlineBlip? doc i 0 d p).map ImageRec.core := by
  cases hemb : p.embedRId with
  | none => simp [extractInlineBlip?, hemb]
  | some rId =>
    by_cases hr0 : rId = ""
    · simp [extractInlineBlip?, hemb, hr0]
    · cases hfp : doc.findPart rId with
      | none => simp [extractInlineBlip?, hemb, hr0, hfp]
      | some part =>
        cases hps : part.pilSize with
        | none => simp [extractInlineBlip?, hemb, hr0, hfp, hps]
        | some wh =>
          obtain ⟨w, ht⟩ := wh
          simp only [extractInlineBlip?, hemb, hr0, if_false, hfp, hps]
          exact mkImageMetadata?_core _ _ _ _ _ _ _ _ _ _ _

theorem inlinePicsGo_core (doc : DocxDocument) (i : Nat) (d : Drawing) :
    ∀ (pics : List Pic) (acc : List ImageRec),
      (inlinePicsGo doc i d pics acc).map ImageRec.core
        = acc.map ImageRec.core
          ++ pics.filterMap (fun p => inlineAttemptCore? doc (i, d, p)) := by
  intro pics
  induction pics with
  | nil => intro acc; simp [inlinePicsGo]
  | cons p rest ih =>
    intro acc
    simp only [inlinePicsGo, List.filterMap_cons]
    have hcore : inlineAttemptCore? doc (i, d, p)
        = (extractInlineBlip? doc i acc.length d p).map ImageRec.core := by
      rw [inlineAttemptCore?]
      exact (extractInlineBlip?_core doc i d p acc.length).symm
    cases hext : extractInlineBlip? doc i acc.length d p with
    | none =>
      rw [hcore, hext]
      exact ih acc
    | some r =>
      rw [hcore, hext]
      rw [ih (acc ++ [r])]
      simp

theorem inlineDrawingsGo_core (doc : DocxDocument) (i : Nat) :
    ∀ (ds : List Drawing) (acc : List ImageRec),
      (inlineDrawingsGo doc i ds acc).map ImageRec.core
        = acc.map ImageRec.core
          ++ ((ds.map (drawingAttempts i)).flatten).filterMap
              (inlineAttemptCore? doc) := by
  intro ds
  induction ds with
  | nil => intro acc; simp [inlineDrawingsGo]
  | cons d rest ih =>
    intro acc
    simp only [inlineDrawingsGo, List.map_cons, List.flatten_cons,
      List.filterMap_append]
    rw [ih _, inlinePicsGo_core doc i d d.pics acc]
    simp only [drawingAttempts, List.filterMap_map, List.append_assoc]
    rfl

theorem inlineRunsGo_core (doc : DocxDocument) (i : Nat) :
    ∀ (rs : List Run) (acc : List ImageRec),
      (inlineRunsGo doc i rs acc).map ImageRec.core
        = acc.map ImageRec.core
          ++ ((rs.map (runAttempts i)).flatten).filterMap
              (inlineAttemptCore? doc) := by
  intro rs
  induction rs with
  | nil => intro acc; simp [inlineRunsGo]
  | cons r rest ih =>
    intro acc
    simp only [inlineRunsGo, List.map_cons, List.flatten_cons,
      List.filterMap_append]
    rw [ih _, inlineDrawingsGo_core doc i r.drawings acc]
    simp only [runAttempts, List.append_assoc]

theorem inlineParasGo_core (doc : DocxDocument) :
    ∀ (paras : List Paragraph) (i : Nat) (acc : List ImageRec),
      (inlineParasGo doc i paras acc).map ImageRec.core
        = acc.map ImageRec.core
          ++ (inlineAttemptsGo i paras).filterMap (inlineAttemptCore? doc) := by
  intro paras
  induction paras with
  | nil => intro i acc; simp [inlineParasGo, inlineAttemptsGo]
  | cons para rest ih =>
    intro i acc
    simp only [inlineParasGo, inlineAttemptsGo, List.filterMap_append]
    rw [ih (i + 1) _, inlineRunsGo_core doc i para.runs acc]
    simp only [paraInlineAttempts, List.append_assoc]

theorem extractInlineImages_core (doc : DocxDocument) :
    (extractInlineImages doc).map ImageRec.core
      = (inlineAttempts doc).filterMap (inlineAttemptCore? doc) := by
  rw [extractInlineImages, inlineAttempts,
    inlineParasGo_core doc doc.paragraphs 0 []]
  rfl

theorem partLookup_corrupt (rId k : String) :
    ∀ parts : List (String × ImagePart),
      partLookup
          (parts.map (fun kv =>
            if kv.1 = rId then (kv.1, { kv.2 with pilSize := none }) else kv)) k
        = if k = rId then
            (partLookup parts k).map (fun part => { part with pilSize := none })
          else partLookup parts k := by
  intro parts
  induction parts with
  | nil => by_cases hk : k = rId <;> simp [partLookup, hk]
  | cons kv t ih =>
    by_cases h1 : kv.1 = rId
    · by_cases h2 : kv.1 = k
      · have hk : k = rId := by rw [← h2, h1]
        simp [partLookup, h1, h2, hk]
      · simp only [List.map_cons, if_pos h1, partLookup]
        rw [if_neg h2, if_neg h2]
        exact ih
    · by_cases h2 : kv.1 = k
      · have hk : ¬ k = rId := by rw [← h2]; exact h1
        simp [partLookup, h1, h2, hk]
      · simp only [List.map_cons, if_neg h1, partLookup]
        rw [if_neg h2, if_neg h2]
        exact ih

theorem corruptPart_findPart (doc : DocxDocument) (rId k : String) :
    (corruptPart doc rId).findPart k
      = if k = rId then
          (doc.findPart k).map (fun part => { part with pilSize := none })
        else doc.findPart k := by
  simp only [corruptPart, DocxDocument.findPart]
  exact partLookup_corrupt rId k doc.relatedParts

theorem inlineAttemptCore?_corrupt (doc : DocxDocument) (rId : String)
    (a : Nat × Drawing × Pic) :
    inlineAttemptCore? (corruptPart doc rId) a
      = if a.2.2.embedRId = some rId then none
        else inlineAttemptCore? doc a := by
  obtain ⟨i, d, p⟩ := a
  simp only [inlineAttemptCore?]
  cases hemb : p.embedRId with
  | none => simp [extractInlineBlip?, hemb]
  | some r0 =>
    by_cases hr0 : r0 = ""
    · by_cases hrr : (some r0 : Option String) = some rId <;>
        simp [extractInlineBlip?, hemb, hr0, hrr]
    · by_cases hrr : r0 = rId
      · subst hrr
        rw [if_pos rfl]
        cases hfp : doc.findPart r0 with
        | none =>
          have hcf : (corruptPart doc r0).findPart r0 = none := by
            rw [corruptPart_findPart, if_pos rfl, hfp]
            rfl
          simp [extractInlineBlip?, hemb, hr0, hcf]
        | some part =>
          have hcf : (corruptPart doc r0).findPart r0
              = some { part with pilSize := none } := by
            rw [corruptPart_findPart, if_pos rfl, hfp]
            rfl
          simp [extractInlineBlip?, hemb, hr0, hcf]
      · rw [if_neg (fun hh => hrr (by injection hh))]
        have hcf : (corruptPart doc rId).findPart r0 = doc.findPart r0 := by
          rw [corruptPart_findPart, if_neg hrr]
        cases hfp : doc.findPart r0 with
        | none =>
          rw [hfp] at hcf
          simp [extractInlineBlip?, hemb, hr0, hcf, hfp]
        | some part =>
          rw [hfp] at hcf
          simp [extractInlineBlip?, hemb, hr0, hcf, hfp]

theorem c8_docx_inline_corrupt (doc : DocxDocument) (rId : String) :
    (extractInlineImages (corruptPart doc rId)).map ImageRec.core
      = ((inlineAttempts doc).filter
          (fun a => a.2.2.embedRId ≠ some rId)).filterMap
          (inlineAttemptCore? doc) := by
  rw [extractInlineImages_core (corruptPart doc rId)]
  rw [show inlineAttempts (corruptPart doc rId) = inlineAttempts doc from rfl]
  rw [show inlineAttemptCore? (corruptPart doc rId)
      = fun a => if a.2.2.embedRId = some rId then none
        else inlineAttemptCore? doc a from funext (inlineAttemptCore?_corrupt doc rId)]
  rw [List.filterMap_filter]
  refine congrArg (fun f => List.filterMap f (inlineAttempts doc)) (funext ?_)
  intro a
  by_cases h : a.2.2.embedRId = some rId <;> simp [h]

theorem slideImagesGo_filter_ge (i : Nat) (title : Option String)
    (j0 target : Nat) (htg : target < j0) (shapes : List PShape) :
    (slideImagesGo i title j0 shapes).filter
        (fun r => r.image_id ≠ mkPptxId i target)
      = slideImagesGo i title j0 shapes := by
  apply List.filter_eq_self.mpr
  intro r hr
  refine decide_eq_true ?_
  intro heq
  rcases slideImagesGo_mem_id i title j0 shapes r hr with ⟨k, hk, hid⟩
  have := (mkPptxId_inj (hid ▸ heq)).2
  omega

theorem pptxSlidesGo_filter_lt (slides : List Slide) (i0 a0 b0 : Nat)
    (ha : a0 < i0) :
    (pptxSlidesGo i0 slides).filter (fun r => r.image_id ≠ mkPptxId a0 b0)
      = pptxSlidesGo i0 slides := by
  apply List.filter_eq_self.mpr
  intro r hr
  refine decide_eq_true ?_
  intro heq
  rcases pptxSlidesGo_mem_id slides i0 r hr with ⟨a, b, hab, hid⟩
  have := (mkPptxId_inj (hid ▸ heq)).1
  omega

theorem slideImagesGo_corrupt (i : Nat) (title : Option String) :
    ∀ (shapes : List PShape) (j0 jt : Nat) (s0 : PShape),
      shapes.get? jt = some s0 →
      slideImagesGo i title j0 (shapes.set jt { s0 with image := none })
        = (slideImagesGo i title j0 shapes).filter
            (fun r => r.image_id ≠ mkPptxId i (j0 + jt)) := by
  intro shapes
  induction shapes with
  | nil => intro j0 jt s0 h; simp at h
  | cons s rest ih =>
    intro j0 jt s0 h
    cases jt with
    | zero =>
      have hs : s0 = s := by
        injection h with hh
        exact hh.symm
      subst hs
      rw [List.set_cons_zero]
      simp only [Nat.add_zero]
      by_cases hp : s0.isPicture
      · cases hext : extractShape? i j0 title s0 with
        | none =>
          have lhs1 : slideImagesGo i title j0 ({ s0 with image := none } :: rest)
              = slideImagesGo i title (j0 + 1) rest := by
            simp only [slideImagesGo]
            rw [if_pos (show ({ s0 with image := none } : PShape).isPicture = true
              from hp)]
            rfl
          have rhs1 : slideImagesGo i title j0 (s0 :: rest)
              = slideImagesGo i title (j0 + 1) rest := by
            simp only [slideImagesGo]
            rw [if_pos hp, hext]
          rw [lhs1, rhs1, slideImagesGo_filter_ge i title (j0 + 1) j0 (by omega)]
        | some r =>
          have lhs1 : slideImagesGo i title j0 ({ s0 with image := none } :: rest)
              = slideImagesGo i title (j0 + 1) rest := by
            simp only [slideImagesGo]
            rw [if_pos (show ({ s0 with image := none } : PShape).isPicture = true
              from hp)]
            rfl
          have rhs1 : slideImagesGo i title j0 (s0 :: rest)
              = r :: slideImagesGo i title (j0 + 1) rest := by
            simp only [slideImagesGo]
            rw [if_pos hp, hext]
          rw [lhs1, rhs1, List.filter_cons]
          have hid : r.image_id = mkPptxId i j0 := extractShape?_id hext
          rw [if_neg (by simp [hid])]
          rw [slideImagesGo_filter_ge i title (j0 + 1) j0 (by omega)]
      · have lhs1 : slideImagesGo i title j0 ({ s0 with image := none } :: rest)
            = slideImagesGo i title (j0 + 1) rest := by
          simp only [slideImagesGo]
          rw [if_neg (show ¬ ({ s0 with image := none } : PShape).isPicture = true
            from hp)]
        have rhs1 : slideImagesGo i title j0 (s0 :: rest)
            = slideImagesGo i title (j0 + 1) rest := by
          simp only [slideImagesGo]
          rw [if_neg hp]
        rw [lhs1, rhs1, slideImagesGo_filter_ge i title (j0 + 1) j0 (by omega)]
    | succ t =>
      have h2 : rest.get? t = some s0 := by simpa using h
      rw [List.set_cons_succ]
      have harith : j0 + 1 + t = j0 + (t + 1) := by omega
      by_cases hp : s.isPicture
      · cases hext : extractShape? i j0 title s with
        | none =>
          have lhs1 : slideImagesGo i title j0
                (s :: rest.set t { s0 with image := none })
              = slideImagesGo i title (j0 + 1)
                  (rest.set t { s0 with image := none }) := by
            simp only [slideImagesGo]
            rw [if_pos hp, hext]
          have rhs1 : slideImagesGo i title j0 (s :: rest)
              = slideImagesGo i title (j0 + 1) rest := by
            simp only [slideImagesGo]
            rw [if_pos hp, hext]
          rw [lhs1, rhs1, ih (j0 + 1) t s0 h2, harith]
        | some r =>
          have lhs1 : slideImagesGo i title j0
                (s :: rest.set t { s0 with image := none })
              = r :: slideImagesGo i title (j0 + 1)
                  (rest.set t { s0 with image := none }) := by
            simp only [slideImagesGo]
            rw [if_pos hp, hext]
          have rhs1 : slideImagesGo i title j0 (s :: rest)
              = r :: slideImagesGo i title (j0 + 1) rest := by
            simp only [slideImagesGo]
            rw [if_pos hp, hext]
          rw [lhs1, rhs1, List.filter_cons]
          have hid : r.image_id = mkPptxId i j0 := extractShape?_id hext
          rw [if_pos (by
            refine decide_eq_true ?_
            intro heq
            have := (mkPptxId_inj (hid ▸ heq)).2
            omega)]
          rw [ih (j0 + 1) t s0 h2, harith]
      · have lhs1 : slideImagesGo i title j0
              (s :: rest.set t { s0 with image := none })
            = slideImagesGo i title (j0 + 1)
                (rest.set t { s0 with image := none }) := by
          simp only [slideImagesGo]
          rw [if_neg hp]
        have rhs1 : slideImagesGo i title j0 (s :: rest)
            = slideImagesGo i title (j0 + 1) rest := by
          simp only [slideImagesGo]
          rw [if_neg hp]
        rw [lhs1, rhs1, ih (j0 + 1) t s0 h2, harith]

theorem pptxSlidesGo_corrupt :
    ∀ (slides : List Slide) (i0 it j : Nat) (sl : Slide) (s0 : PShape),
      slides.get? it = some sl → sl.shapes.get? j = some s0 →
      pptxSlidesGo i0
          (slides.set it
            { sl with shapes := sl.shapes.set j { s0 with image := none } })
        = (pptxSlidesGo i0 slides).filter
            (fun r => r.image_id ≠ mkPptxId (i0 + it) j) := by
  intro slides
  induction slides with
  | nil => intro i0 it j sl s0 h _; simp at h
  | cons sl0 rest ih =>
    intro i0 it j sl s0 h1 h2
    cases it with
    | zero =>
      have hs : sl = sl0 := by
        injection h1 with hh
        exact hh.symm
      subst hs
      rw [List.set_cons_zero]
      simp only [pptxSlidesGo, Nat.add_zero, List.filter_append]
      have htitle : slideTitle { sl with shapes := sl.shapes.set j { s0 with image := none } }
          = slideTitle sl := rfl
      rw [htitle]
      rw [show slideImagesGo i0 (slideTitle sl) 0
            (sl.shapes.set j { s0 with image := none })
          = (slideImagesGo i0 (slideTitle sl) 0 sl.shapes).filter
              (fun r => r.image_id ≠ mkPptxId i0 (0 + j)) from
        slideImagesGo_corrupt i0 (slideTitle sl) sl.shapes 0 j s0 h2]
      rw [pptxSlidesGo_filter_lt rest (i0 + 1) i0 j (by omega)]
      simp
    | succ t =>
      have h1b : rest.get? t = some sl := by simpa using h1
      rw [List.set_cons_succ]
      simp only [pptxSlidesGo, List.filter_append]
      have harith : i0 + 1 + t = i0 + (t + 1) := by omega
      rw [ih (i0 + 1) t j sl s0 h1b h2, harith]
      have hkeep : (slideImagesGo i0 (slideTitle sl0) 0 sl0.shapes).filter
          (fun r => r.image_id ≠ mkPptxId (i0 + (t + 1)) j)
          = slideImagesGo i0 (slideTitle sl0) 0 sl0.shapes := by
        apply List.filter_eq_self.mpr
        intro r hr
        refine decide_eq_true ?_
        intro heq
        rcases slideImagesGo_mem_id i0 (slideTitle sl0) 0 sl0.shapes r hr with
          ⟨k, _, hid⟩
        have := (mkPptxId_inj (hid ▸ heq)).1
        omega
      rw [hkeep]

/-- C8: extraction never aborts on a single bad image.  Corrupting one
binary part of a DOCX removes exactly the attempts that reference it
from the inline pass (the other images' records, ids apart, are
unchanged); corrupting one shape's image resource in a PPTX removes
exactly that shape's record; on one slide with three pictures where
picture #2 is corrupted, extraction returns exactly the records of
pictures #1 and #3; the 3-image DOCX likewise keeps its other two
(renumbered) records. -/
theorem c8_continue_on_error :
    (∀ (doc : DocxDocument) (rId : String),
      (extractInlineImages (corruptPart doc rId)).map ImageRec.core
        = ((inlineAttempts doc).filter
            (fun a => a.2.2.embedRId ≠ some rId)).filterMap
            (inlineAttemptCore? doc))
    ∧ (∀ (p : Presentation) (i j : Nat) (sl : Slide) (s0 : PShape),
        p.slides.get? i = some sl → sl.shapes.get? j = some s0 →
        pptxExtractImages (corruptShapeAt p i j)
          = (pptxExtractImages p).filter
              (fun r => r.image_id ≠ mkPptxId i j))
    ∧ ((pptxExtractImages (corruptShapeAt presThreePics 0 1)).map
          (fun r => r.image_id)
        = ["slide0_shape0", "slide0_shape2"])
    ∧ ((extractInlineImages (corruptPart exDocx3 "rId2")).map
          (fun r => r.image_id)
        = ["para0_img0", "para2_img1"]) := by
  refine ⟨c8_docx_inline_corrupt, ?_, by decide, by decide⟩
  intro p i j sl s0 h1 h2
  simp only [corruptShapeAt, h1, h2, pptxExtractImages]
  have := pptxSlidesGo_corrupt p.slides 0 i j sl s0 h1 h2
  simpa using this

/-- C8 witness: the general statements applied to the three-picture
slide and the three-image DOCX with their second image corrupted. -/
theorem c8_witness :
    pptxExtractImages (corruptShapeAt presThreePics 0 1)
        = (pptxExtractImages presThreePics).filter
            (fun r => r.image_id ≠ mkPptxId 0 1)
      ∧ (extractInlineImages (corruptPart exDocx3 "rId2")).map ImageRec.core
        = ((inlineAttempts exDocx3).filter
            (fun a => a.2.2.embedRId ≠ some "rId2")).filterMap
            (inlineAttemptCore? exDocx3) :=
  ⟨c8_continue_on_error.2.1 presThreePics 0 1
      ⟨[exShape 1 true "Picture 1", exShape 2 true "Picture 2",
        exShape 3 true "Picture 3"], none⟩
      (exShape 2 true "Picture 2") (by decide) (by decide),
   c8_continue_on_error.1 exDocx3 "rId2"⟩

end Ada
